import Mathlib

/-!
# Raven.Pal posix/fileutils.c

A shallow embedding of `_pwrite`, `_allocate_file_space`, `_ensure_path_exists`,
`_read_file` and `_resize_file`.

The operating system is a parameter: a `World σ` answers every primitive call from
its current state `σ` and moves to a new state. Each answer carries the value of
`errno` as it stands when the call returns. The embedded functions thread a
`Machine σ` (world state, `errno`, log of the calls issued so far) and return the
status code together with the value left in `*detailed_error_code`.
-/

namespace Fileutils

/-! ## Constants -/

/-- The `errno.h` value of `ENOENT`. -/
def ENOENT : Int := 2
/-- The `errno.h` value of `EINTR`. -/
def EINTR : Int := 4
/-- The `errno.h` value of `EBADF`. -/
def EBADF : Int := 9
/-- The `errno.h` value of `ENOTDIR`. -/
def ENOTDIR : Int := 20
/-- The `errno.h` value of `EINVAL`. -/
def EINVAL : Int := 22
/-- The `errno.h` value of `EFBIG`. -/
def EFBIG : Int := 27

/-- The enumerators of `status_codes.h` and `internal_posix.h` that `fileutils.c` names.
Those headers are not part of the source tree, so the values are parameters. -/
structure StatusCodes where
  SUCCESS : Int
  FAIL_PWRITE : Int
  FAIL_PWRITE_WITH_RETRIES : Int
  FAIL_ALLOC_FILE : Int
  FAIL_NOMEM : Int
  FAIL_STAT_FILE : Int
  FAIL_CREATE_DIRECTORY : Int
  FAIL_BROKEN_LINK : Int
  FAIL_NOT_DIRECTORY : Int
  FAIL_OPEN_FILE : Int
  FAIL_READ_FILE : Int
  FAIL_EOF : Int
  FAIL_TRUNCATE_FILE : Int
  SYNC_DIR_NOT_ALLOWED : Int
  deriving DecidableEq, Repr

/-- The status codes in the order the specification lists them. -/
def StatusCodes.all (sc : StatusCodes) : List Int :=
  [sc.SUCCESS, sc.FAIL_PWRITE, sc.FAIL_PWRITE_WITH_RETRIES, sc.FAIL_ALLOC_FILE, sc.FAIL_NOMEM,
   sc.FAIL_STAT_FILE, sc.FAIL_CREATE_DIRECTORY, sc.FAIL_BROKEN_LINK, sc.FAIL_NOT_DIRECTORY,
   sc.FAIL_OPEN_FILE, sc.FAIL_READ_FILE, sc.FAIL_EOF, sc.FAIL_TRUNCATE_FILE]

/-- What the embedding assumes of the absent header: `SUCCESS` is `0` (the value the
pre-allocation primitive returns on success and a `case` label next to the `errno` values),
the status codes are pairwise different, and each fits the `int32_t` the functions return. -/
def StatusCodes.Valid (sc : StatusCodes) : Prop :=
  sc.SUCCESS = 0 ∧ sc.all.Nodup ∧ ∀ c ∈ sc.all, -2147483648 ≤ c ∧ c < 2147483648

instance (sc : StatusCodes) : Decidable sc.Valid := by
  unfold StatusCodes.Valid; infer_instance

/-- A sample assignment of the status codes, used to instantiate the theorems. -/
def sampleCodes : StatusCodes :=
  { SUCCESS := 0, FAIL_PWRITE := 1, FAIL_PWRITE_WITH_RETRIES := 2, FAIL_ALLOC_FILE := 3,
    FAIL_NOMEM := 5, FAIL_STAT_FILE := 6, FAIL_CREATE_DIRECTORY := 7, FAIL_BROKEN_LINK := 8,
    FAIL_NOT_DIRECTORY := 10, FAIL_OPEN_FILE := 11, FAIL_READ_FILE := 12, FAIL_EOF := 13,
    FAIL_TRUNCATE_FILE := 14, SYNC_DIR_NOT_ALLOWED := 1 }

/-! ## Machine integers -/

/-- Two to the sixty-fourth: the modulus of `uint64_t` arithmetic. -/
def U64 : Nat := 18446744073709551616

/-- Reading an `int64_t` as `uint64_t`. -/
def toU64 (x : Int) : Nat := (x % (U64 : Int)).toNat

/-- Subtraction of `uint64_t` values. -/
def subU64 (a b : Nat) : Nat := toU64 ((a : Int) - (b : Int))

/-- Narrowing an `int64_t` to `int32_t`. -/
def toInt32 (x : Int) : Int := (x + 2147483648) % 4294967296 - 2147483648

/-! ## The operating system -/

/-- The answer of a primitive: the value it returns and `errno` as it stands afterwards. -/
structure Reply where
  ret : Int
  errno : Int
  deriving DecidableEq, Repr

/-- The answer of `stat`: `st_mode` is meaningful when `ret` is not `-1`. -/
structure StatReply where
  ret : Int
  errno : Int
  st_mode : Nat
  deriving DecidableEq, Repr

/-- The answer of `fstat`: `st_size` is meaningful when `ret` is not `-1`. -/
structure FstatReply where
  ret : Int
  errno : Int
  st_size : Int
  deriving DecidableEq, Repr

/-- The answer of a directory-sync helper: its status code, the value it stores through
`detailed_error_code` (if it stores one) and `errno` afterwards. -/
structure SyncReply where
  rc : Int
  detail : Option Int
  errno : Int
  deriving DecidableEq, Repr

/-- The answer of `strdup`: whether the copy was allocated, and `errno` afterwards. -/
structure StrdupReply where
  ok : Bool
  errno : Int
  deriving DecidableEq, Repr

/-- The primitives `fileutils.c` calls and does not define. A buffer handed to
`rvn_pwrite` is the list of bytes found at the pointer, so that `buffer + n` is
`buffer.drop n`; a buffer handed to `rvn_pread` is an address. `_sync_directory_allowed`
answers like the others: a code, and `errno` as it stands when it returns. -/
structure World (σ : Type) where
  rvn_pwrite : σ → Int → List UInt8 → Nat → Nat → Reply × σ
  _sync_directory_allowed : σ → Int → Reply × σ
  nanosleep : σ → Nat → Reply × σ
  _rvn_fallocate : σ → Int → Int → Int → Reply × σ
  rvn_pread : σ → Int → Int → Int → Int → Reply × σ
  fstat : σ → Int → FstatReply × σ
  rvn_ftruncate : σ → Int → Int → Reply × σ
  strdup : σ → List Char → StrdupReply × σ
  stat : σ → List Char → StatReply × σ
  mkdir : σ → List Char → Nat → Reply × σ
  readlink : σ → List Char → Nat → Reply × σ
  _sync_directory_for_internal : σ → List Char → SyncReply × σ
  _sync_directory_for : σ → List Char → SyncReply × σ

/-- A call to a primitive, with its arguments. -/
inductive Call where
  | rvn_pwrite (fd : Int) (buffer : List UInt8) (count offset : Nat)
  | _sync_directory_allowed (fd : Int)
  | nanosleep (nsec : Nat)
  | _rvn_fallocate (fd offset size : Int)
  | rvn_pread (fd buffer count offset : Int)
  | fstat (fd : Int)
  | rvn_ftruncate (fd size : Int)
  | strdup (s : List Char)
  | stat (path : List Char)
  | mkdir (path : List Char) (mode : Nat)
  | readlink (path : List Char) (bufsiz : Nat)
  | _sync_directory_for_internal (path : List Char)
  | _sync_directory_for (path : List Char)
  deriving DecidableEq, Repr

/-- An entry of the log: the call, the value it returned (for `strdup`, `1` for a copy and
`0` for NULL) and `errno` as it stands after the call. -/
structure Event where
  call : Call
  ret : Int
  errno : Int
  deriving DecidableEq, Repr

/-- The state a function of `fileutils.c` runs in. -/
structure Machine (σ : Type) where
  world : σ
  errno : Int
  trace : List Event

/-- What a function leaves behind: its return value, `*detailed_error_code`, the machine. -/
structure Ret (σ : Type) where
  rc : Int
  detailed_error_code : Int
  m : Machine σ

/-- Issue `rvn_pwrite`. -/
def call_pwrite {σ : Type} (w : World σ) (m : Machine σ) (fd : Int) (buffer : List UInt8)
    (count offset : Nat) : Int × Machine σ :=
  let a := w.rvn_pwrite m.world fd buffer count offset
  (a.1.ret, ⟨a.2, a.1.errno,
    m.trace ++ [⟨Call.rvn_pwrite fd buffer count offset, a.1.ret, a.1.errno⟩]⟩)

/-- Issue `_sync_directory_allowed`. -/
def call_sync_directory_allowed {σ : Type} (w : World σ) (m : Machine σ) (fd : Int) :
    Int × Machine σ :=
  let a := w._sync_directory_allowed m.world fd
  (a.1.ret, ⟨a.2, a.1.errno,
    m.trace ++ [⟨Call._sync_directory_allowed fd, a.1.ret, a.1.errno⟩]⟩)

/-- Issue `nanosleep`. -/
def call_nanosleep {σ : Type} (w : World σ) (m : Machine σ) (nsec : Nat) : Machine σ :=
  let a := w.nanosleep m.world nsec
  ⟨a.2, a.1.errno, m.trace ++ [⟨Call.nanosleep nsec, a.1.ret, a.1.errno⟩]⟩

/-! ## `_pwrite` -/


/-- The exit of `_pwrite` on a failed write that is not retried (lines 41-44). -/
def _pwrite_fail {σ : Type} (sc : StatusCodes) (m : Machine σ) (cifs_retries : Int) : Ret σ :=
  if cifs_retries ≠ 3 then ⟨sc.FAIL_PWRITE_WITH_RETRIES, m.errno, m⟩
  else ⟨sc.FAIL_PWRITE, m.errno, m⟩

/-- The `do ... while` loop of `_pwrite` (lines 26-47), one iteration per unit of fuel.
`continue` in a `do ... while` jumps to the loop condition. -/
def _pwrite_loop {σ : Type} (w : World σ) (sc : StatusCodes) (fd : Int)
    (buffer : List UInt8) (count offset : Nat) (detailed_error_code : Int) :
    Nat → Machine σ → Nat → Int → Option (Ret σ)
  | 0, _, _, _ => none
  | fuel + 1, m, actually_written, cifs_retries =>
    let r := call_pwrite w m fd (buffer.drop actually_written) (subU64 count actually_written)
      ((offset + actually_written) % U64)
    if r.1 < 0 then
      if r.2.errno = EINVAL then
        let p := call_sync_directory_allowed w r.2 fd
        if p.1 = sc.SYNC_DIR_NOT_ALLOWED then
          if cifs_retries - 1 > 0 then
            let m3 := call_nanosleep w p.2 200000000
            if actually_written < count then
              _pwrite_loop w sc fd buffer count offset detailed_error_code fuel m3
                actually_written (cifs_retries - 1)
            else some ⟨sc.SUCCESS, detailed_error_code, m3⟩
          else some (_pwrite_fail sc p.2 (cifs_retries - 1))
        else some (_pwrite_fail sc p.2 cifs_retries)
      else some (_pwrite_fail sc r.2 cifs_retries)
    else
      let aw := (actually_written + toU64 r.1) % U64
      if aw < count then
        _pwrite_loop w sc fd buffer count offset detailed_error_code fuel r.2 aw cifs_retries
      else some ⟨sc.SUCCESS, detailed_error_code, r.2⟩

/-- The function `_pwrite` (lines 21-50). `detailed_error_code` is the value the
out-parameter holds on entry. -/
def _pwrite {σ : Type} (w : World σ) (sc : StatusCodes) (fuel : Nat) (m : Machine σ) (fd : Int)
    (buffer : List UInt8) (count offset : Nat) (detailed_error_code : Int) : Option (Ret σ) :=
  _pwrite_loop w sc fd buffer count offset detailed_error_code fuel m 0 3

/-! ## `_allocate_file_space` -/

/-- Issue `_rvn_fallocate`. -/
def call_fallocate {σ : Type} (w : World σ) (m : Machine σ) (fd offset size : Int) :
    Int × Machine σ :=
  let a := w._rvn_fallocate m.world fd offset size
  (a.1.ret, ⟨a.2, a.1.errno,
    m.trace ++ [⟨Call._rvn_fallocate fd offset size, a.1.ret, a.1.errno⟩]⟩)

/-- The fallback of `_allocate_file_space` (lines 67-73): one zero byte written through
`_pwrite` at `(uint64_t)size - 1`; the `int64_t` result is narrowed on return. -/
def _allocate_fallback {σ : Type} (w : World σ) (sc : StatusCodes) (fuel : Nat) (m : Machine σ)
    (fd size : Int) (detailed_error_code : Int) : Option (Ret σ) :=
  match _pwrite w sc fuel m fd [0] 1 (subU64 (toU64 size) 1) detailed_error_code with
  | none => none
  | some r =>
    if r.rc ≠ sc.SUCCESS then some ⟨toInt32 r.rc, r.m.errno, r.m⟩
    else some ⟨toInt32 r.rc, r.detailed_error_code, r.m⟩

/-- The `for` loop of `_allocate_file_space` (lines 57-87); the first argument is the number
of iterations left, `result` the value of the local variable of that name. The `case`
labels are tested in the order they are written. -/
def _allocate_loop {σ : Type} (w : World σ) (sc : StatusCodes) (fuel : Nat) (fd size : Int) :
    Nat → Machine σ → Int → Int → Option (Ret σ)
  | 0, m, detailed_error_code, result => some ⟨result, detailed_error_code, m⟩
  | n + 1, m, detailed_error_code, _ =>
    let r := call_fallocate w m fd 0 size
    if r.1 = EBADF ∨ r.1 = EINVAL ∨ r.1 = EFBIG then
      _allocate_fallback w sc fuel r.2 fd size detailed_error_code
    else if r.1 = EINTR then
      _allocate_loop w sc fuel fd size n r.2 r.2.errno r.1
    else if r.1 = sc.SUCCESS then some ⟨sc.SUCCESS, detailed_error_code, r.2⟩
    else some ⟨sc.FAIL_ALLOC_FILE, r.1, r.2⟩

/-- The function `_allocate_file_space` (lines 52-88). `fuel` bounds the loop of the
`_pwrite` it may call. The local `result` is not initialised on entry; the loop body runs
at least once and assigns it before it is returned. -/
def _allocate_file_space {σ : Type} (w : World σ) (sc : StatusCodes) (fuel : Nat)
    (m : Machine σ) (fd size : Int) (detailed_error_code : Int) : Option (Ret σ) :=
  _allocate_loop w sc fuel fd size 1024 m detailed_error_code 0

/-! ## `_read_file` -/

/-- What `_read_file` leaves behind. -/
structure ReadRet (σ : Type) where
  rc : Int
  actual_size : Int
  detailed_error_code : Int
  m : Machine σ

/-- Issue `rvn_pread`. -/
def call_pread {σ : Type} (w : World σ) (m : Machine σ) (fd buffer count offset : Int) :
    Int × Machine σ :=
  let a := w.rvn_pread m.world fd buffer count offset
  (a.1.ret, ⟨a.2, a.1.errno,
    m.trace ++ [⟨Call.rvn_pread fd buffer count offset, a.1.ret, a.1.errno⟩]⟩)

/-- The `while` loop of `_read_file` with its two exits (lines 180-205), one test of the
loop condition per unit of fuel. -/
def _read_file_loop {σ : Type} (w : World σ) (sc : StatusCodes) (fd required_size : Int)
    (detailed_error_code : Int) : Nat → Machine σ → Int → Int → Int → Option (ReadRet σ)
  | 0, _, _, _, _ => none
  | fuel + 1, m, remain_size, buffer, offset =>
    if remain_size > 0 then
      let r := call_pread w m fd buffer remain_size offset
      if r.1 = -1 then
        some ⟨sc.FAIL_READ_FILE, required_size - remain_size, r.2.errno, r.2⟩
      else if r.1 = 0 then
        some ⟨sc.FAIL_EOF, required_size - remain_size, r.2.errno, r.2⟩
      else
        _read_file_loop w sc fd required_size detailed_error_code fuel r.2
          (remain_size - r.1) (buffer + r.1) (offset + r.1)
    else some ⟨sc.SUCCESS, required_size, detailed_error_code, m⟩

/-- The function `_read_file` (lines 173-206). The store `*actual_size = 0` of line 179 is
overwritten on every path that returns. -/
def _read_file {σ : Type} (w : World σ) (sc : StatusCodes) (fuel : Nat) (m : Machine σ)
    (fd buffer required_size offset : Int) (detailed_error_code : Int) : Option (ReadRet σ) :=
  _read_file_loop w sc fd required_size detailed_error_code fuel m required_size buffer offset

/-! ## `_resize_file` -/

/-- The macro `S_ISDIR` of `sys/stat.h`: the file-type bits of `st_mode` say "directory". -/
def S_ISDIR (st_mode : Nat) : Bool := st_mode &&& 0o170000 == 0o040000

/-- Scan for `c`, the head of the list being at index `i`. -/
def strchr_from (c : Char) : List Char → Nat → Option Nat
  | [], _ => none
  | x :: xs, i => if x = c then some i else strchr_from c xs (i + 1)

/-- The call `strchr(s + start, c)` for a character `c` other than NUL: the index in `s`
of the first `c` at or after `start`. -/
def strchr (s : List Char) (start : Nat) (c : Char) : Option Nat :=
  strchr_from c (s.drop start) start

/-- Issue `strdup`. -/
def call_strdup {σ : Type} (w : World σ) (m : Machine σ) (path : List Char) :
    Bool × Machine σ :=
  let a := w.strdup m.world path
  (a.1.ok, ⟨a.2, a.1.errno,
    m.trace ++ [⟨Call.strdup path, if a.1.ok then 1 else 0, a.1.errno⟩]⟩)

/-- Issue `stat`. -/
def call_stat {σ : Type} (w : World σ) (m : Machine σ) (path : List Char) :
    StatReply × Machine σ :=
  let a := w.stat m.world path
  (a.1, ⟨a.2, a.1.errno, m.trace ++ [⟨Call.stat path, a.1.ret, a.1.errno⟩]⟩)

/-- Issue `mkdir`. -/
def call_mkdir {σ : Type} (w : World σ) (m : Machine σ) (path : List Char) (mode : Nat) :
    Int × Machine σ :=
  let a := w.mkdir m.world path mode
  (a.1.ret, ⟨a.2, a.1.errno, m.trace ++ [⟨Call.mkdir path mode, a.1.ret, a.1.errno⟩]⟩)

/-- Issue `readlink`. -/
def call_readlink {σ : Type} (w : World σ) (m : Machine σ) (path : List Char) (bufsiz : Nat) :
    Int × Machine σ :=
  let a := w.readlink m.world path bufsiz
  (a.1.ret, ⟨a.2, a.1.errno, m.trace ++ [⟨Call.readlink path bufsiz, a.1.ret, a.1.errno⟩]⟩)

/-- Issue `_sync_directory_for_internal`; the second component is `*detailed_error_code`
after the call. -/
def call_sync_directory_for_internal {σ : Type} (w : World σ) (m : Machine σ)
    (path : List Char) (detailed_error_code : Int) : Int × Int × Machine σ :=
  let a := w._sync_directory_for_internal m.world path
  (a.1.rc, a.1.detail.getD detailed_error_code,
    ⟨a.2, a.1.errno, m.trace ++ [⟨Call._sync_directory_for_internal path, a.1.rc, a.1.errno⟩]⟩)

/-- Issue `_sync_directory_for`; the second component is `*detailed_error_code` after
the call. -/
def call_sync_directory_for {σ : Type} (w : World σ) (m : Machine σ)
    (path : List Char) (detailed_error_code : Int) : Int × Int × Machine σ :=
  let a := w._sync_directory_for m.world path
  (a.1.rc, a.1.detail.getD detailed_error_code,
    ⟨a.2, a.1.errno, m.trace ++ [⟨Call._sync_directory_for path, a.1.rc, a.1.errno⟩]⟩)

/-- How one iteration of the loop of `_ensure_path_exists` ends: the function returns, or
the loop goes on. -/
inductive Step (σ : Type) where
  | exit (r : Ret σ)
  | next (m : Machine σ) (detailed_error_code : Int)

/-- The body of the loop of `_ensure_path_exists` (lines 113-145) for the string
`dup_path` denotes once the separator at `current_end` is overwritten with NUL. -/
def _ensure_path_body {σ : Type} (w : World σ) (sc : StatusCodes) (m : Machine σ)
    (dup_path : List Char) (detailed_error_code : Int) : Step σ :=
  let st := call_stat w m dup_path
  if st.1.ret = -1 then
    if st.2.errno ≠ ENOENT then .exit ⟨sc.FAIL_STAT_FILE, st.2.errno, st.2⟩
    else
      let mk := call_mkdir w st.2 dup_path 0o755
      if mk.1 = -1 then
        let rl := call_readlink w mk.2 dup_path 1
        if rl.1 ≠ -1 ∧ rl.2.errno ≠ EINVAL then .exit ⟨sc.FAIL_BROKEN_LINK, mk.2.errno, rl.2⟩
        else .exit ⟨sc.FAIL_CREATE_DIRECTORY, mk.2.errno, rl.2⟩
      else
        let s1 := call_sync_directory_for_internal w mk.2 dup_path detailed_error_code
        if s1.1 ≠ sc.SUCCESS then .exit ⟨s1.1, s1.2.1, s1.2.2⟩
        else
          let s2 := call_sync_directory_for w s1.2.2 dup_path s1.2.1
          if s2.1 ≠ sc.SUCCESS then .exit ⟨s2.1, s2.2.1, s2.2.2⟩
          else .next s2.2.2 s2.2.1
  else if S_ISDIR st.1.st_mode = false then .exit ⟨sc.FAIL_NOT_DIRECTORY, ENOTDIR, st.2⟩
  else .next st.2 detailed_error_code

/-- The `while` loop of `_ensure_path_exists` (lines 106-149), one iteration per unit of
fuel; `current_end` is an index into `dup_path`. -/
def _ensure_path_loop {σ : Type} (w : World σ) (sc : StatusCodes) (dup_path : List Char) :
    Nat → Machine σ → Nat → Int → Option (Ret σ)
  | 0, _, _, _ => none
  | fuel + 1, m, current_end, detailed_error_code =>
    match strchr dup_path (current_end + 1) '/' with
    | some i =>
      match _ensure_path_body w sc m (dup_path.take i) detailed_error_code with
      | .exit r => some r
      | .next m1 d1 => _ensure_path_loop w sc dup_path fuel m1 i d1
    | none =>
      match _ensure_path_body w sc m dup_path detailed_error_code with
      | .exit r => some r
      | .next m1 d1 => some ⟨sc.SUCCESS, d1, m1⟩

/-- The function `_ensure_path_exists` (lines 90-160). The loop advances `current_end` by
at least one character per iteration, so the length of the string is fuel enough. -/
def _ensure_path_exists {σ : Type} (w : World σ) (sc : StatusCodes) (m : Machine σ)
    (path : List Char) (detailed_error_code : Int) : Option (Ret σ) :=
  let dup_path := if path = [] then ['.'] else path
  let d := call_strdup w m dup_path
  if d.1 = false then some ⟨sc.FAIL_NOMEM, d.2.errno, d.2⟩
  else _ensure_path_loop w sc dup_path dup_path.length d.2 0 detailed_error_code

/-! ## Reading the log -/

/-- Whether an entry of the log is a positional write. -/
def Event.isPwrite (e : Event) : Bool :=
  match e.call with
  | .rvn_pwrite _ _ _ _ => true
  | _ => false

/-- The positional writes of a log, in the order they were issued. -/
def pwrites (evs : List Event) : List Event := evs.filter Event.isPwrite

/-- The number of bytes an entry of the log wrote: the result of a positional write when
it is positive, nothing otherwise. -/
def Event.bytes (e : Event) : Nat :=
  match e.call with
  | .rvn_pwrite _ _ _ _ => if 0 < e.ret then e.ret.toNat else 0
  | _ => 0

/-- The sum of the positive results of the positional writes of a log. -/
def written (evs : List Event) : Nat := (evs.map Event.bytes).sum

/-- Whether an entry of the log is a pause. -/
def Event.isSleep (e : Event) : Bool :=
  match e.call with
  | .nanosleep _ => true
  | _ => false

/-- The number of pauses in a log: the retries of `_pwrite`. -/
def retries (evs : List Event) : Nat := (evs.filter Event.isSleep).length

/-- The retry rule of `_pwrite` read off a log: a failed positional write that is followed
by a later positional write failed with `EINVAL`, and what follows it is the probe
answering `SYNC_DIR_NOT_ALLOWED`, the pause of 200 ms and the same write again. -/
def RetryRule (sc : StatusCodes) (fd : Int) (evs : List Event) : Prop :=
  ∀ pre e post, evs = pre ++ e :: post → e.isPwrite = true → e.ret < 0 →
    (∃ x ∈ post, x.isPwrite = true) →
    e.errno = EINVAL ∧ ∃ p z e1 post1, post = p :: z :: e1 :: post1 ∧
      p.call = Call._sync_directory_allowed fd ∧ p.ret = sc.SYNC_DIR_NOT_ALLOWED ∧
      z.call = Call.nanosleep 200000000 ∧ e1.call = e.call

/-- What `_pwrite` stores through `detailed_error_code` when the positional write `e` is
not retried, read off the log `evs` of the run: `errno` as line 41 finds it. When `e` did
not fail with `EINVAL` the probe is not called, `e` is the last entry of the log and the
value is its `errno`; when it failed with `EINVAL` the probe `_sync_directory_allowed(fd)`
follows it as the last entry and the value is `errno` as the probe left it. -/
def FailureErrno (fd : Int) (evs : List Event) (e : Event) (d : Int) : Prop :=
  (e.errno ≠ EINVAL ∧ (∃ init, evs = init ++ [e]) ∧ d = e.errno) ∨
  (e.errno = EINVAL ∧ ∃ init p, evs = init ++ [e, p] ∧
    p.call = Call._sync_directory_allowed fd ∧ d = p.errno)

/-- What an entry of the log read: the result of a positional read, nothing for other
calls. -/
def Event.readResult (e : Event) : Int :=
  match e.call with
  | .rvn_pread _ _ _ _ => e.ret
  | _ => 0

/-- The sum of the results of the positional reads of a log. -/
def readTotal (evs : List Event) : Int := (evs.map Event.readResult).sum

/-- The file model the specification reasons with, one entry of the log at a time:
a pre-allocation that returns `0` and a positional write that returns a positive count
leave the length at the larger of the old length and the end of the range they cover;
a truncation that returns `0` sets the length; nothing else changes it. -/
def Event.newLength (len : Int) (e : Event) : Int :=
  match e.call with
  | .rvn_pwrite _ _ _ offset => if 0 < e.ret then max len ((offset : Int) + e.ret) else len
  | ._rvn_fallocate _ offset size => if e.ret = 0 then max len (offset + size) else len
  | .rvn_ftruncate _ size => if e.ret = 0 then size else len
  | _ => len

/-- The length of the file after the calls of a log, `len` being its length before. -/
def fileLength (len : Int) (evs : List Event) : Int := evs.foldl Event.newLength len

/-! ## Successive pre-allocation calls -/

/-- The machine after `k` successive calls `_rvn_fallocate(fd, 0, size)`. -/
def afterFallocates {σ : Type} (w : World σ) (fd size : Int) : Nat → Machine σ → Machine σ
  | 0, m => m
  | k + 1, m => afterFallocates w fd size k (call_fallocate w m fd 0 size).2

/-- What the call `_rvn_fallocate(fd, 0, size)` number `k` (counting from `0`) returns
when the calls are issued one after the other from machine `m`. -/
def fallocateResult {σ : Type} (w : World σ) (fd size : Int) (k : Nat) (m : Machine σ) : Int :=
  (call_fallocate w (afterFallocates w fd size k m) fd 0 size).1

/-! ## Successive positional reads -/

/-- The machine `_read_file` issues its next positional read from, and the arguments of
that read. -/
structure ReadState (σ : Type) where
  m : Machine σ
  remain_size : Int
  buffer : Int
  offset : Int

/-- One positional read as `_read_file` issues it (line 182), followed by the updates of
lines 194-196. -/
def readStep {σ : Type} (w : World σ) (fd : Int) (s : ReadState σ) : ReadState σ :=
  let r := call_pread w s.m fd s.buffer s.remain_size s.offset
  ⟨r.2, s.remain_size - r.1, s.buffer + r.1, s.offset + r.1⟩

/-- The state after `k` successive positional reads. -/
def afterReads {σ : Type} (w : World σ) (fd : Int) : Nat → ReadState σ → ReadState σ
  | 0, s => s
  | k + 1, s => afterReads w fd k (readStep w fd s)

/-- What the positional read number `k` (counting from `0`) returns when the reads are
issued one after the other from state `s`. -/
def preadResult {σ : Type} (w : World σ) (fd : Int) (k : Nat) (s : ReadState σ) : Int :=
  (call_pread w (afterReads w fd k s).m fd (afterReads w fd k s).buffer
    (afterReads w fd k s).remain_size (afterReads w fd k s).offset).1

/-! ## The strings `_ensure_path_exists` examines -/

/-- The indices `i` with `start ≤ i` at which `path` holds a `'/'`, in increasing order. -/
def slashesFrom (path : List Char) (start : Nat) : List Nat :=
  (List.range' start (path.length - start)).filter (fun i => path[i]? == some '/')

/-- The strings that end just before each `'/'` of `path` found at index `start` or later,
followed by `path` itself. -/
def examinedFrom (path : List Char) (start : Nat) : List (List Char) :=
  (slashesFrom path start).map (fun i => path.take i) ++ [path]

/-- The strings `_ensure_path_exists` is specified to examine for `path`: those that end
just before each `'/'` found at index 1 or later, then the whole path. -/
def examined (path : List Char) : List (List Char) := examinedFrom path 1

/-- The string `_ensure_path_exists` duplicates: `"."` for the empty path. -/
def dupOf (path : List Char) : List Char := if path = [] then ['.'] else path

/-- The loop body of `_ensure_path_exists` run over a list of strings, one after the other,
until it returns; `SUCCESS` when the list is exhausted (line 151). -/
def walk {σ : Type} (w : World σ) (sc : StatusCodes) :
    List (List Char) → Machine σ → Int → Ret σ
  | [], m, detailed_error_code => ⟨sc.SUCCESS, detailed_error_code, m⟩
  | p :: ps, m, detailed_error_code =>
    match _ensure_path_body w sc m p detailed_error_code with
    | .exit r => r
    | .next m1 d1 => walk w sc ps m1 d1

/-- The loop body of `_ensure_path_exists` run over strings it passes without returning:
the machine and the value of `*detailed_error_code` it reaches, `none` when the function
returns at one of them. -/
def walkTo {σ : Type} (w : World σ) (sc : StatusCodes) :
    List (List Char) → Machine σ → Int → Option (Machine σ × Int)
  | [], m, detailed_error_code => some (m, detailed_error_code)
  | p :: ps, m, detailed_error_code =>
    match _ensure_path_body w sc m p detailed_error_code with
    | .exit _ => none
    | .next m1 d1 => walkTo w sc ps m1 d1

/-- A world in which every call succeeds, positional writes and reads transfer one byte
at a time, nothing exists yet and the file is empty. The probe and the pause, which are
reached only with `errno = EINVAL`, leave `errno` at that value. -/
def slowWorld : World Nat :=
  { rvn_pwrite := fun s _ _ c _ => (if c = 0 then ⟨-1, EINVAL⟩ else ⟨1, 0⟩, s + 1)
    _sync_directory_allowed := fun s _ => (⟨0, EINVAL⟩, s + 1)
    nanosleep := fun s _ => (⟨0, EINVAL⟩, s + 1)
    _rvn_fallocate := fun s _ _ _ => (⟨0, 0⟩, s + 1)
    rvn_pread := fun s _ _ _ _ => (⟨1, 0⟩, s + 1)
    fstat := fun s _ => (⟨0, 0, 0⟩, s + 1)
    rvn_ftruncate := fun s _ _ => (⟨0, 0⟩, s + 1)
    strdup := fun s _ => (⟨true, 0⟩, s + 1)
    stat := fun s _ => (⟨-1, ENOENT, 0⟩, s + 1)
    mkdir := fun s _ _ => (⟨0, 0⟩, s + 1)
    readlink := fun s _ _ => (⟨-1, EINVAL⟩, s + 1)
    _sync_directory_for_internal := fun s _ => (⟨0, none, 0⟩, s + 1)
    _sync_directory_for := fun s _ => (⟨0, none, 0⟩, s + 1) }

/-- A world in which every positional write fails with `EINVAL` and the probe answers
`SYNC_DIR_NOT_ALLOWED` of `sampleCodes`. -/
def cifsWorld : World Nat :=
  { slowWorld with
    rvn_pwrite := fun s _ _ _ _ => (⟨-1, EINVAL⟩, s + 1)
    _sync_directory_allowed := fun s _ => (⟨1, EINVAL⟩, s + 1) }

/-- A world whose first positional read returns `-2` and whose later reads return all
that is asked. -/
def oddReadWorld : World Nat :=
  { slowWorld with
    rvn_pread := fun s _ _ c _ => (if s = 0 then ⟨-2, 5⟩ else ⟨c, 0⟩, s + 1) }

/-- A world whose first positional read returns two bytes and whose later reads report
the end of the file. -/
def shortFileWorld : World Nat :=
  { slowWorld with
    rvn_pread := fun s _ _ _ _ => (if s = 0 then ⟨2, 0⟩ else ⟨0, 0⟩, s + 1) }

/-- A world whose first positional read returns two bytes and whose later reads fail
with `errno` 5. -/
def brokenDiskWorld : World Nat :=
  { slowWorld with
    rvn_pread := fun s _ _ _ _ => (if s = 0 then ⟨2, 0⟩ else ⟨-1, 5⟩, s + 1) }

/-- A world whose pre-allocation primitive is interrupted on every call. -/
def interruptedWorld : World Nat :=
  { slowWorld with
    _rvn_fallocate := fun s _ _ _ => (⟨EINTR, EINTR⟩, s + 1) }

/-- A world in which `a` is a directory and `a/b` a regular file. -/
def fileInTheWayWorld : World Nat :=
  { slowWorld with
    stat := fun s p =>
      (if p = ['a'] then ⟨0, 0, 0o040755⟩
        else if p = ['a', '/', 'b'] then ⟨0, 0, 0o100644⟩
        else ⟨-1, ENOENT, 0⟩, s + 1) }

/-- A world in which nothing exists, `mkdir` is refused with `errno` 13 and the
symlink-read probe fails with `ENOENT`. -/
def deniedWorld : World Nat :=
  { slowWorld with
    mkdir := fun s _ _ => (⟨-1, 13⟩, s + 1)
    readlink := fun s _ _ => (⟨-1, ENOENT⟩, s + 1) }

/-- A world whose positional writes fail with `EINVAL` and whose probe answers
`SYNC_DIR_NOT_ALLOWED` of `sampleCodes` and leaves `errno` at `EBADF`, where the pause
that follows finds and keeps it. -/
def cifsProbeErrnoWorld : World Nat :=
  { slowWorld with
    rvn_pwrite := fun s _ _ _ _ => (⟨-1, EINVAL⟩, s + 1)
    _sync_directory_allowed := fun s _ => (⟨1, EBADF⟩, s + 1)
    nanosleep := fun s _ => (⟨0, EBADF⟩, s + 1) }

/-- The directories and the dangling symbolic links of a small file system. -/
structure Disk where
  dirs : List (List Char)
  links : List (List Char)
  deriving DecidableEq, Repr

/-- A world over a small file system. `stat` finds the directories and nothing else (it
follows a dangling link to nothing); `mkdir` creates a directory where there is none and
fails with `errno` 17 on a directory or a link; `readlink` reads a link, leaving `errno` at
the 17 of the `mkdir` that failed before it, fails with `EINVAL` on a directory and with
`ENOENT` on nothing. Every other call succeeds. -/
def diskWorld : World Disk :=
  { rvn_pwrite := fun s _ _ _ _ => (⟨1, 0⟩, s)
    _sync_directory_allowed := fun s _ => (⟨0, EINVAL⟩, s)
    nanosleep := fun s _ => (⟨0, EINVAL⟩, s)
    _rvn_fallocate := fun s _ _ _ => (⟨0, 0⟩, s)
    rvn_pread := fun s _ _ _ _ => (⟨1, 0⟩, s)
    fstat := fun s _ => (⟨0, 0, 0⟩, s)
    rvn_ftruncate := fun s _ _ => (⟨0, 0⟩, s)
    strdup := fun s _ => (⟨true, 0⟩, s)
    stat := fun s p => (if s.dirs.contains p then ⟨0, 0, 0o040755⟩ else ⟨-1, ENOENT, 0⟩, s)
    mkdir := fun s p _ =>
      if s.dirs.contains p || s.links.contains p then (⟨-1, 17⟩, s)
      else (⟨0, 0⟩, { s with dirs := s.dirs ++ [p] })
    readlink := fun s p _ =>
      (if s.links.contains p then ⟨1, 17⟩
        else if s.dirs.contains p then ⟨-1, EINVAL⟩ else ⟨-1, ENOENT⟩, s)
    _sync_directory_for_internal := fun s _ => (⟨0, none, 0⟩, s)
    _sync_directory_for := fun s _ => (⟨0, none, 0⟩, s) }
/-! ## `_pwrite`: complete writes -/

theorem written_append (xs ys : List Event) : written (xs ++ ys) = written xs + written ys := by
  simp [written]

theorem pwrites_cons_of_isPwrite {e : Event} (h : e.isPwrite = true) (es : List Event) :
    pwrites (e :: es) = e :: pwrites es := by
  simp [pwrites, h]

theorem pwrites_cons_of_not {e : Event} (h : e.isPwrite = false) (es : List Event) :
    pwrites (e :: es) = pwrites es := by
  simp [pwrites, h]

theorem valid_pwrite_codes {sc : StatusCodes} (h : sc.Valid) :
    sc.FAIL_PWRITE ≠ sc.SUCCESS ∧ sc.FAIL_PWRITE_WITH_RETRIES ≠ sc.SUCCESS ∧
      sc.FAIL_PWRITE ≠ sc.FAIL_PWRITE_WITH_RETRIES := by
  obtain ⟨_, hn, _⟩ := h
  simp only [StatusCodes.all, List.nodup_cons, List.mem_cons, not_or] at hn
  refine ⟨fun e => hn.1.1 e.symm, fun e => hn.1.2.1 e.symm, hn.2.1.1⟩

theorem pwrite_fail_spec {σ : Type} {sc : StatusCodes} (hsc : sc.Valid) (m : Machine σ) (cr : Int) :
    ((_pwrite_fail sc m cr).rc = sc.FAIL_PWRITE ∨
        (_pwrite_fail sc m cr).rc = sc.FAIL_PWRITE_WITH_RETRIES) ∧
      (_pwrite_fail sc m cr).rc ≠ sc.SUCCESS ∧
      (_pwrite_fail sc m cr).detailed_error_code = m.errno ∧ (_pwrite_fail sc m cr).m = m := by
  obtain ⟨h1, h2, _⟩ := valid_pwrite_codes hsc
  unfold _pwrite_fail
  split <;> simp [h1, h2]

theorem pwrites_last_cons (e0 : Event) {evs pre : List Event} {e : Event}
    (h : pwrites evs = pre ++ [e]) : ∃ pre1, pwrites (e0 :: evs) = pre1 ++ [e] := by
  cases hp : e0.isPwrite with
  | true => exact ⟨e0 :: pre, by rw [pwrites_cons_of_isPwrite hp, h]; rfl⟩
  | false => exact ⟨pre, by rw [pwrites_cons_of_not hp, h]⟩

theorem failureErrno_cons (x : Event) {fd : Int} {evs : List Event} {e : Event} {d : Int}
    (h : FailureErrno fd evs e d) : FailureErrno fd (x :: evs) e d := by
  rcases h with ⟨h1, ⟨init, h2⟩, h3⟩ | ⟨h1, init, p, h2, h3, h4⟩
  · exact Or.inl ⟨h1, ⟨x :: init, by rw [h2]; rfl⟩, h3⟩
  · exact Or.inr ⟨h1, x :: init, p, by rw [h2]; rfl, h3, h4⟩

theorem failureErrno_write {fd : Int} {e : Event} (h : e.errno ≠ EINVAL) :
    FailureErrno fd [e] e e.errno :=
  Or.inl ⟨h, ⟨[], rfl⟩, rfl⟩

theorem failureErrno_probe {fd : Int} {e p : Event} (h : e.errno = EINVAL)
    (hp : p.call = Call._sync_directory_allowed fd) : FailureErrno fd [e, p] e p.errno :=
  Or.inr ⟨h, [], p, rfl, hp, rfl⟩

theorem retryRule_nil (sc : StatusCodes) (fd : Int) : RetryRule sc fd [] := by
  intro pre e post h
  simp at h

theorem retryRule_cons {sc : StatusCodes} {fd : Int} {e0 : Event} {evs : List Event}
    (h : RetryRule sc fd evs)
    (h0 : e0.isPwrite = true → e0.ret < 0 → (∃ x ∈ evs, x.isPwrite = true) →
      e0.errno = EINVAL ∧ ∃ p z e1 post1, evs = p :: z :: e1 :: post1 ∧
        p.call = Call._sync_directory_allowed fd ∧ p.ret = sc.SYNC_DIR_NOT_ALLOWED ∧
        z.call = Call.nanosleep 200000000 ∧ e1.call = e0.call) :
    RetryRule sc fd (e0 :: evs) := by
  intro pre e post hd
  cases pre with
  | nil =>
    simp only [List.nil_append, List.cons.injEq] at hd
    obtain ⟨h1, h2⟩ := hd
    subst h1; subst h2
    exact h0
  | cons p pre1 =>
    simp only [List.cons_append, List.cons.injEq] at hd
    exact h pre1 e post hd.2

theorem pwrite_fail_rc {σ : Type} {sc : StatusCodes} (hsc : sc.Valid) (m : Machine σ) (cr : Int) :
    ((_pwrite_fail sc m cr).rc = sc.FAIL_PWRITE_WITH_RETRIES ↔ cr ≠ 3) := by
  obtain ⟨_, _, h3⟩ := valid_pwrite_codes hsc
  unfold _pwrite_fail
  split
  · simp_all
  · simp_all

theorem retries_cons (e : Event) (es : List Event) :
    retries (e :: es) = (if e.isSleep then 1 else 0) + retries es := by
  unfold retries
  by_cases h : e.isSleep = true
  · simp [h]; omega
  · simp [h]

/-- The loop of `_pwrite` from any state with `actually_written < count`, for any world:
what a run that returns has logged obeys the retry rule. -/
theorem pwrite_loop_retry {σ : Type} (w : World σ) (sc : StatusCodes) (hsc : sc.Valid) (fd : Int)
    (buffer : List UInt8) (count offset : Nat) (dec : Int) :
    ∀ (fuel : Nat) (m : Machine σ) (aw : Nat) (cr : Int) (r : Ret σ), aw < count → 1 ≤ cr →
      cr ≤ 3 → _pwrite_loop w sc fd buffer count offset dec fuel m aw cr = some r →
      ∃ evs, r.m.trace = m.trace ++ evs ∧
        (∃ e rest, evs = e :: rest ∧ e.call = Call.rvn_pwrite fd (buffer.drop aw)
          (subU64 count aw) ((offset + aw) % U64)) ∧
        RetryRule sc fd evs ∧ (retries evs : Int) + 1 ≤ cr ∧
        (r.rc ≠ sc.SUCCESS → (r.rc = sc.FAIL_PWRITE ∨ r.rc = sc.FAIL_PWRITE_WITH_RETRIES) ∧
          (r.rc = sc.FAIL_PWRITE_WITH_RETRIES ↔ (cr ≠ 3 ∨ 1 ≤ retries evs)) ∧
          ∃ pre e, pwrites evs = pre ++ [e] ∧ e.ret < 0 ∧
            FailureErrno fd evs e r.detailed_error_code) := by
  intro fuel
  induction fuel with
  | zero => intro m aw cr r _ _ _ h; simp [_pwrite_loop] at h
  | succ n ih =>
    intro m aw cr r haw hcr1 hcr3 hrun
    rw [_pwrite_loop] at hrun
    simp only [call_pwrite, call_sync_directory_allowed, call_nanosleep] at hrun
    generalize hrep : w.rvn_pwrite m.world fd (buffer.drop aw) (subU64 count aw)
      ((offset + aw) % U64) = a at hrun
    obtain ⟨rep, s1⟩ := a
    simp only at hrun
    generalize hprep : w._sync_directory_allowed s1 fd = b at hrun
    obtain ⟨pr, s2⟩ := b
    simp only at hrun
    generalize hnrep : w.nanosleep s2 200000000 = c at hrun
    obtain ⟨nr, s3⟩ := c
    simp only at hrun
    set e0 : Event := ⟨Call.rvn_pwrite fd (buffer.drop aw) (subU64 count aw)
      ((offset + aw) % U64), rep.ret, rep.errno⟩ with he0
    set e1 : Event := ⟨Call._sync_directory_allowed fd, pr.ret, pr.errno⟩ with he1
    set e2 : Event := ⟨Call.nanosleep 200000000, nr.ret, nr.errno⟩ with he2
    have hcall : e0.call = Call.rvn_pwrite fd (buffer.drop aw) (subU64 count aw)
      ((offset + aw) % U64) := rfl
    have hp0 : e0.isPwrite = true := rfl
    have hs0 : e0.isSleep = false := rfl
    have hp1 : e1.isPwrite = false := rfl
    have hs1 : e1.isSleep = false := rfl
    have hp2 : e2.isPwrite = false := rfl
    have hs2 : e2.isSleep = true := rfl
    by_cases hneg : rep.ret < 0
    · rw [if_pos hneg] at hrun
      by_cases herr : rep.errno = EINVAL
      · rw [if_pos herr] at hrun
        by_cases hprobe : pr.ret = sc.SYNC_DIR_NOT_ALLOWED
        · rw [if_pos hprobe] at hrun
          by_cases hcr : cr - 1 > 0
          · rw [if_pos hcr, if_pos haw] at hrun
            obtain ⟨evs, htr, ⟨f, rest, hf, hfc⟩, hrule, hret, hfail⟩ :=
              ih _ aw (cr - 1) r haw (by omega) (by omega) hrun
            refine ⟨e0 :: e1 :: e2 :: evs, ?_, ⟨e0, _, rfl, hcall⟩, ?_, ?_, ?_⟩
            · rw [htr]; simp
            · apply retryRule_cons
              · apply retryRule_cons
                · apply retryRule_cons hrule
                  intro h; simp [hp2] at h
                · intro h; simp [hp1] at h
              · intro _ _ _
                exact ⟨herr, e1, e2, f, rest, by rw [hf], rfl, hprobe, rfl, by rw [hfc, hcall]⟩
            · simp only [retries_cons, hs0, hs1, hs2]
              simp; omega
            · intro h
              obtain ⟨h1, h2, pre, e, hp, hlt, hd⟩ := hfail h
              refine ⟨h1, ?_, ?_⟩
              · simp only [retries_cons, hs0, hs1, hs2]
                constructor
                · intro _; right; simp
                · intro _; exact h2.2 (Or.inl (by omega))
              · obtain ⟨p1, hq1⟩ := pwrites_last_cons e2 hp
                obtain ⟨p2, hq2⟩ := pwrites_last_cons e1 hq1
                obtain ⟨p3, hq3⟩ := pwrites_last_cons e0 hq2
                exact ⟨p3, e, hq3, hlt,
                  failureErrno_cons e0 (failureErrno_cons e1 (failureErrno_cons e2 hd))⟩
          · rw [if_neg hcr] at hrun
            obtain ⟨f1, f2, f3, f4⟩ := pwrite_fail_spec hsc
              (⟨s2, pr.errno, m.trace ++ [e0] ++ [e1]⟩ : Machine σ) (cr - 1)
            have f5 := pwrite_fail_rc hsc
              (⟨s2, pr.errno, m.trace ++ [e0] ++ [e1]⟩ : Machine σ) (cr - 1)
            simp only [Option.some.injEq] at hrun
            subst hrun
            refine ⟨[e0, e1], ?_, ⟨e0, _, rfl, hcall⟩, ?_, ?_, fun _ => ⟨f1, ?_, [], e0, rfl, hneg, ?_⟩⟩
            · rw [f4]; simp
            · apply retryRule_cons
              · apply retryRule_cons (retryRule_nil _ _)
                intro h; simp [hp1] at h
              · intro _ _ h; simp [hp1] at h
            · simp only [retries_cons, hs0, hs1]; simp [retries]; omega
            · rw [f5]; simp only [retries_cons, hs0, hs1]; simp [retries]; omega
            · rw [f3]; exact failureErrno_probe herr rfl
        · rw [if_neg hprobe] at hrun
          obtain ⟨f1, f2, f3, f4⟩ := pwrite_fail_spec hsc
            (⟨s2, pr.errno, m.trace ++ [e0] ++ [e1]⟩ : Machine σ) cr
          have f5 := pwrite_fail_rc hsc
            (⟨s2, pr.errno, m.trace ++ [e0] ++ [e1]⟩ : Machine σ) cr
          simp only [Option.some.injEq] at hrun
          subst hrun
          refine ⟨[e0, e1], ?_, ⟨e0, _, rfl, hcall⟩, ?_, ?_, fun _ => ⟨f1, ?_, [], e0, rfl, hneg, ?_⟩⟩
          · rw [f4]; simp
          · apply retryRule_cons
            · apply retryRule_cons (retryRule_nil _ _)
              intro h; simp [hp1] at h
            · intro _ _ h; simp [hp1] at h
          · simp only [retries_cons, hs0, hs1]; simp [retries]; omega
          · rw [f5]; simp only [retries_cons, hs0, hs1]; simp [retries]
          · rw [f3]; exact failureErrno_probe herr rfl
      · rw [if_neg herr] at hrun
        obtain ⟨f1, f2, f3, f4⟩ := pwrite_fail_spec hsc
          (⟨s1, rep.errno, m.trace ++ [e0]⟩ : Machine σ) cr
        have f5 := pwrite_fail_rc hsc (⟨s1, rep.errno, m.trace ++ [e0]⟩ : Machine σ) cr
        simp only [Option.some.injEq] at hrun
        subst hrun
        refine ⟨[e0], ?_, ⟨e0, _, rfl, hcall⟩, ?_, ?_, fun _ => ⟨f1, ?_, [], e0, rfl, hneg, ?_⟩⟩
        · rw [f4]
        · apply retryRule_cons (retryRule_nil _ _)
          intro _ _ h; simp at h
        · simp only [retries_cons, hs0]; simp [retries]; omega
        · rw [f5]; simp only [retries_cons, hs0]; simp [retries]
        · rw [f3]; exact failureErrno_write herr
    · rw [if_neg hneg] at hrun
      by_cases hlt : (aw + toU64 rep.ret) % U64 < count
      · rw [if_pos hlt] at hrun
        obtain ⟨evs, htr, _, hrule, hret, hfail⟩ :=
          ih _ ((aw + toU64 rep.ret) % U64) cr r hlt hcr1 hcr3 hrun
        refine ⟨e0 :: evs, ?_, ⟨e0, _, rfl, hcall⟩, ?_, ?_, ?_⟩
        · rw [htr]; simp
        · apply retryRule_cons hrule
          intro _ h; exact absurd h hneg
        · simp only [retries_cons, hs0]; simp; omega
        · intro h
          obtain ⟨h1, h2, pre, e, hp, hlt, hd⟩ := hfail h
          refine ⟨h1, ?_, ?_⟩
          · simp only [retries_cons, hs0]; simpa using h2
          · obtain ⟨p1, hq1⟩ := pwrites_last_cons e0 hp
            exact ⟨p1, e, hq1, hlt, failureErrno_cons e0 hd⟩
      · rw [if_neg hlt] at hrun
        simp only [Option.some.injEq] at hrun
        subst hrun
        refine ⟨[e0], rfl, ⟨e0, _, rfl, hcall⟩, ?_, ?_, fun h => absurd rfl h⟩
        · apply retryRule_cons (retryRule_nil _ _)
          intro _ h; exact absurd h hneg
        · simp only [retries_cons, hs0]; simp [retries]; omega



theorem pwrite_loop_retry_step {σ : Type} (w : World σ) (sc : StatusCodes) (fd : Int)
    (buffer : List UInt8) (count offset : Nat) (dec : Int)
    (hfail : ∀ s fd b c o, (w.rvn_pwrite s fd b c o).1.ret < 0 ∧
      (w.rvn_pwrite s fd b c o).1.errno = EINVAL)
    (hprobe : ∀ s fd, (w._sync_directory_allowed s fd).1.ret = sc.SYNC_DIR_NOT_ALLOWED)
    (n : Nat) (m : Machine σ) (aw : Nat) (cr : Int) (haw : aw < count) (hcr : cr - 1 > 0) :
    ∃ m1 evs, m1.trace = m.trace ++ evs ∧ (pwrites evs).length = 1 ∧ retries evs = 1 ∧
      _pwrite_loop w sc fd buffer count offset dec (n + 1) m aw cr =
        _pwrite_loop w sc fd buffer count offset dec n m1 aw (cr - 1) := by
  have hf := hfail m.world fd (buffer.drop aw) (subU64 count aw) ((offset + aw) % U64)
  generalize hrep : w.rvn_pwrite m.world fd (buffer.drop aw) (subU64 count aw)
    ((offset + aw) % U64) = a at hf
  obtain ⟨rep, s1⟩ := a
  have hpr := hprobe s1 fd
  generalize hprep : w._sync_directory_allowed s1 fd = b at hpr
  obtain ⟨pr, s2⟩ := b
  generalize hnrep : w.nanosleep s2 200000000 = c
  obtain ⟨nr, s3⟩ := c
  simp only at hf hpr
  refine ⟨⟨s3, nr.errno,
      m.trace ++ [⟨Call.rvn_pwrite fd (buffer.drop aw) (subU64 count aw)
        ((offset + aw) % U64), rep.ret, rep.errno⟩] ++
      [⟨Call._sync_directory_allowed fd, pr.ret, pr.errno⟩] ++
      [⟨Call.nanosleep 200000000, nr.ret, nr.errno⟩]⟩,
    [⟨Call.rvn_pwrite fd (buffer.drop aw) (subU64 count aw) ((offset + aw) % U64), rep.ret,
        rep.errno⟩,
      ⟨Call._sync_directory_allowed fd, pr.ret, pr.errno⟩,
      ⟨Call.nanosleep 200000000, nr.ret, nr.errno⟩], ?_, ?_, ?_, ?_⟩
  · simp
  · simp [pwrites, Event.isPwrite]
  · simp [retries, Event.isSleep]
  · rw [_pwrite_loop]
    simp only [call_pwrite, call_sync_directory_allowed, call_nanosleep, hrep, hprep, hnrep]
    rw [if_pos hf.1, if_pos hf.2, if_pos hpr, if_pos hcr, if_pos haw]

theorem pwrite_loop_last_step {σ : Type} (w : World σ) (sc : StatusCodes) (fd : Int)
    (buffer : List UInt8) (count offset : Nat) (dec : Int)
    (hfail : ∀ s fd b c o, (w.rvn_pwrite s fd b c o).1.ret < 0 ∧
      (w.rvn_pwrite s fd b c o).1.errno = EINVAL)
    (hprobe : ∀ s fd, (w._sync_directory_allowed s fd).1.ret = sc.SYNC_DIR_NOT_ALLOWED)
    (n : Nat) (m : Machine σ) (aw : Nat) :
    ∃ r evs, r.m.trace = m.trace ++ evs ∧ (pwrites evs).length = 1 ∧ retries evs = 0 ∧
      r.rc = sc.FAIL_PWRITE_WITH_RETRIES ∧
      (∃ e p, evs = [e, p] ∧ e.isPwrite = true ∧
        p.call = Call._sync_directory_allowed fd ∧ r.detailed_error_code = p.errno) ∧
      _pwrite_loop w sc fd buffer count offset dec (n + 1) m aw 1 = some r := by
  have hf := hfail m.world fd (buffer.drop aw) (subU64 count aw) ((offset + aw) % U64)
  generalize hrep : w.rvn_pwrite m.world fd (buffer.drop aw) (subU64 count aw)
    ((offset + aw) % U64) = a at hf
  obtain ⟨rep, s1⟩ := a
  have hpr := hprobe s1 fd
  generalize hprep : w._sync_directory_allowed s1 fd = b at hpr
  obtain ⟨pr, s2⟩ := b
  simp only at hf hpr
  refine ⟨_pwrite_fail sc ⟨s2, pr.errno,
      m.trace ++ [⟨Call.rvn_pwrite fd (buffer.drop aw) (subU64 count aw)
        ((offset + aw) % U64), rep.ret, rep.errno⟩] ++
      [⟨Call._sync_directory_allowed fd, pr.ret, pr.errno⟩]⟩
      (1 - 1),
    [⟨Call.rvn_pwrite fd (buffer.drop aw) (subU64 count aw) ((offset + aw) % U64), rep.ret,
        rep.errno⟩,
      ⟨Call._sync_directory_allowed fd, pr.ret, pr.errno⟩],
    ?_, ?_, ?_, ?_, ⟨_, _, rfl, rfl, rfl, ?_⟩, ?_⟩
  · simp [_pwrite_fail]
  · simp [pwrites, Event.isPwrite]
  · simp [retries, Event.isSleep]
  · simp [_pwrite_fail]
  · simp [_pwrite_fail]
  · rw [_pwrite_loop]
    simp only [call_pwrite, call_sync_directory_allowed, call_nanosleep, hrep, hprep]
    rw [if_pos hf.1, if_pos hf.2, if_pos hpr, if_neg (by decide)]

theorem pwrites_append (xs ys : List Event) : pwrites (xs ++ ys) = pwrites xs ++ pwrites ys := by
  simp [pwrites]

theorem retries_append (xs ys : List Event) : retries (xs ++ ys) = retries xs + retries ys := by
  simp [retries]

/-- When every write is refused on a mount that does not allow directory sync, `_pwrite`
issues three writes and gives up. -/
theorem pwrite_all_fail {σ : Type} (w : World σ) (sc : StatusCodes)
    (m : Machine σ) (fd : Int) (buffer : List UInt8) (count offset : Nat) (dec : Int)
    (hcount : 0 < count)
    (hfail : ∀ s fd b c o, (w.rvn_pwrite s fd b c o).1.ret < 0 ∧
      (w.rvn_pwrite s fd b c o).1.errno = EINVAL)
    (hprobe : ∀ s fd, (w._sync_directory_allowed s fd).1.ret = sc.SYNC_DIR_NOT_ALLOWED)
    (fuel : Nat) (hfuel : 3 ≤ fuel) :
    ∃ r evs, _pwrite w sc fuel m fd buffer count offset dec = some r ∧
      r.m.trace = m.trace ++ evs ∧ (pwrites evs).length = 3 ∧ retries evs = 2 ∧
      r.rc = sc.FAIL_PWRITE_WITH_RETRIES ∧
      ∃ init e p, evs = init ++ [e, p] ∧ e.isPwrite = true ∧
        p.call = Call._sync_directory_allowed fd ∧ r.detailed_error_code = p.errno := by
  obtain ⟨n, rfl⟩ : ∃ n, fuel = n + 3 := ⟨fuel - 3, by omega⟩
  obtain ⟨m1, ev1, t1, p1, r1, h1⟩ := pwrite_loop_retry_step w sc fd buffer count offset dec
    hfail hprobe (n + 2) m 0 3 hcount (by decide)
  obtain ⟨m2, ev2, t2, p2, r2, h2⟩ := pwrite_loop_retry_step w sc fd buffer count offset dec
    hfail hprobe (n + 1) m1 0 (3 - 1) hcount (by decide)
  obtain ⟨r, ev3, t3, p3, r3, hrc, ⟨e, p, hev, hpw, hpc, hd⟩, h3⟩ :=
    pwrite_loop_last_step w sc fd buffer count offset dec hfail hprobe n m2 0
  refine ⟨r, ev1 ++ ev2 ++ ev3, ?_, ?_, ?_, ?_, hrc, ev1 ++ ev2, e, p, by rw [hev], hpw, hpc, hd⟩
  · unfold _pwrite
    rw [h1, h2]
    exact h3
  · rw [t3, t2, t1]; simp
  · simp only [pwrites_append, List.length_append, p1, p2, p3]
  · simp only [retries_append, r1, r2, r3]

/-- Claim C7 fails in two ways. For `count = 0` the one positional write fails with
`EINVAL`, the probe answers `SYNC_DIR_NOT_ALLOWED`, the pause is taken, and the `continue`
reaches the loop condition `0 < 0`: `_pwrite` returns `SUCCESS` after a single, failed write
instead of issuing three. And when the probe changes `errno`: three positional writes fail
with `EINVAL` (22), the probe leaves `errno` at `EBADF` (9) each time, and `_pwrite` returns
`FAIL_PWRITE_WITH_RETRIES` with `detailed_error_code = 9`, which is not the `errno` of the
last failed write. -/
theorem pwrite_zero_count_or_probe_errno :
    (_pwrite cifsWorld sampleCodes 3 ⟨0, 0, []⟩ 5 [] 0 0 0).map (fun r => (r.rc, r.m.trace)) =
      some (sampleCodes.SUCCESS,
        [⟨Call.rvn_pwrite 5 [] 0 0, -1, EINVAL⟩,
         ⟨Call._sync_directory_allowed 5, sampleCodes.SYNC_DIR_NOT_ALLOWED, EINVAL⟩,
         ⟨Call.nanosleep 200000000, 0, EINVAL⟩]) ∧
    (_pwrite cifsProbeErrnoWorld sampleCodes 3 ⟨0, 0, []⟩ 5 [0] 1 0 0).map
        (fun r => (r.rc, r.detailed_error_code, r.m.trace)) =
      some (sampleCodes.FAIL_PWRITE_WITH_RETRIES, 9,
        [⟨Call.rvn_pwrite 5 [0] 1 0, -1, 22⟩,
         ⟨Call._sync_directory_allowed 5, sampleCodes.SYNC_DIR_NOT_ALLOWED, 9⟩,
         ⟨Call.nanosleep 200000000, 0, 9⟩,
         ⟨Call.rvn_pwrite 5 [0] 1 0, -1, 22⟩,
         ⟨Call._sync_directory_allowed 5, sampleCodes.SYNC_DIR_NOT_ALLOWED, 9⟩,
         ⟨Call.nanosleep 200000000, 0, 9⟩,
         ⟨Call.rvn_pwrite 5 [0] 1 0, -1, 22⟩,
         ⟨Call._sync_directory_allowed 5, sampleCodes.SYNC_DIR_NOT_ALLOWED, 9⟩]) := by
  decide

/-- Claim C7, for `count > 0` and with `errno` read where the code reads it. In every run
of `_pwrite` that returns: a failed positional write that is followed by another positional
write failed with `EINVAL`, and what follows it is the probe answering
`SYNC_DIR_NOT_ALLOWED`, the pause of 200 ms and the same write again; there are at most two
retries; a failing run returns `FAIL_PWRITE_WITH_RETRIES` exactly when at least one retry
happened and `FAIL_PWRITE` exactly when none did, and `detailed_error_code` is the `errno`
of the last failed write when that is not `EINVAL`, and `errno` as the probe that follows
that write left it when it is `EINVAL`. When every positional write fails with `EINVAL` and
the probe always answers `SYNC_DIR_NOT_ALLOWED`, three units of fuel are enough, exactly
three positional writes are issued, two retries happen, the result is
`FAIL_PWRITE_WITH_RETRIES` and `detailed_error_code` is `errno` as the last probe left
it. -/
theorem pwrite_retry_policy {σ : Type} (w : World σ) (sc : StatusCodes) (hsc : sc.Valid)
    (m : Machine σ) (fd : Int) (buffer : List UInt8) (count offset : Nat) (dec : Int)
    (hcount : 0 < count) :
    (∀ fuel r, _pwrite w sc fuel m fd buffer count offset dec = some r →
      ∃ evs, r.m.trace = m.trace ++ evs ∧
        (∀ pre e post, evs = pre ++ e :: post → e.isPwrite = true → e.ret < 0 →
          (∃ x ∈ post, x.isPwrite = true) →
          e.errno = EINVAL ∧ ∃ p z e1 post1, post = p :: z :: e1 :: post1 ∧
            p.call = Call._sync_directory_allowed fd ∧ p.ret = sc.SYNC_DIR_NOT_ALLOWED ∧
            z.call = Call.nanosleep 200000000 ∧ e1.call = e.call) ∧
        retries evs ≤ 2 ∧
        (r.rc ≠ sc.SUCCESS →
          (r.rc = sc.FAIL_PWRITE_WITH_RETRIES ↔ 1 ≤ retries evs) ∧
          (r.rc = sc.FAIL_PWRITE ↔ retries evs = 0) ∧
          ∃ pre e, pwrites evs = pre ++ [e] ∧ e.ret < 0 ∧
            ((e.errno ≠ EINVAL ∧ (∃ init, evs = init ++ [e]) ∧
                r.detailed_error_code = e.errno) ∨
              (e.errno = EINVAL ∧ ∃ init p, evs = init ++ [e, p] ∧
                p.call = Call._sync_directory_allowed fd ∧
                r.detailed_error_code = p.errno)))) ∧
    ((∀ s fd b c o, (w.rvn_pwrite s fd b c o).1.ret < 0 ∧
        (w.rvn_pwrite s fd b c o).1.errno = EINVAL) →
      (∀ s fd, (w._sync_directory_allowed s fd).1.ret = sc.SYNC_DIR_NOT_ALLOWED) →
      ∀ fuel, 3 ≤ fuel → ∃ r evs, _pwrite w sc fuel m fd buffer count offset dec = some r ∧
        r.m.trace = m.trace ++ evs ∧ (pwrites evs).length = 3 ∧ retries evs = 2 ∧
        r.rc = sc.FAIL_PWRITE_WITH_RETRIES ∧
        ∃ init e p, evs = init ++ [e, p] ∧ e.isPwrite = true ∧
          p.call = Call._sync_directory_allowed fd ∧ r.detailed_error_code = p.errno) := by
  constructor
  · intro fuel r hrun
    obtain ⟨evs, htr, _, hrule, hret, hfail⟩ :=
      pwrite_loop_retry w sc hsc fd buffer count offset dec fuel m 0 3 r hcount (by decide)
        (by decide) hrun
    refine ⟨evs, htr, hrule, by omega, ?_⟩
    intro hne
    obtain ⟨h1, h2, h3⟩ := hfail hne
    obtain ⟨_, _, hd⟩ := valid_pwrite_codes hsc
    refine ⟨?_, ?_, h3⟩
    · rw [h2]; simp
    · constructor
      · intro h
        by_contra hc
        have : r.rc = sc.FAIL_PWRITE_WITH_RETRIES := h2.2 (Or.inr (by omega))
        exact hd (h.symm.trans this)
      · intro h
        rcases h1 with h1 | h1
        · exact h1
        · have := h2.1 h1
          simp at this; omega
  · intro hfail hprobe fuel hfuel
    exact pwrite_all_fail w sc m fd buffer count offset dec hcount hfail hprobe fuel hfuel

/-- An instance: every write fails with `EINVAL` on a mount that does not allow
directory sync; one byte asked, three writes issued, two retries, and the failure is
reported as one with retries. -/
theorem pwrite_retry_policy_witness :
    sampleCodes.Valid ∧ 0 < 1 ∧
    (∀ s fd b c o, (cifsWorld.rvn_pwrite s fd b c o).1.ret < 0 ∧
      (cifsWorld.rvn_pwrite s fd b c o).1.errno = EINVAL) ∧
    (∀ s fd, (cifsWorld._sync_directory_allowed s fd).1.ret =
      sampleCodes.SYNC_DIR_NOT_ALLOWED) ∧
    ∃ r evs, _pwrite cifsWorld sampleCodes 3 ⟨0, 0, []⟩ 5 [0] 1 0 0 = some r ∧
      r.m.trace = [] ++ evs ∧ (pwrites evs).length = 3 ∧ retries evs = 2 ∧
      r.rc = sampleCodes.FAIL_PWRITE_WITH_RETRIES ∧
      (∃ init e p, evs = init ++ [e, p] ∧ e.isPwrite = true ∧
        p.call = Call._sync_directory_allowed 5 ∧ r.detailed_error_code = p.errno) ∧
      (∀ pre e post, evs = pre ++ e :: post → e.isPwrite = true → e.ret < 0 →
        (∃ x ∈ post, x.isPwrite = true) →
        e.errno = EINVAL ∧ ∃ p z e1 post1, post = p :: z :: e1 :: post1 ∧
          p.call = Call._sync_directory_allowed 5 ∧
          p.ret = sampleCodes.SYNC_DIR_NOT_ALLOWED ∧
          z.call = Call.nanosleep 200000000 ∧ e1.call = e.call) ∧
      (r.rc = sampleCodes.FAIL_PWRITE_WITH_RETRIES ↔ 1 ≤ retries evs) ∧
      (r.rc = sampleCodes.FAIL_PWRITE ↔ retries evs = 0) := by
  have h := pwrite_retry_policy cifsWorld sampleCodes (by decide) ⟨0, 0, []⟩ 5 [0] 1 0 0
    (by decide)
  have h1 : ∀ s fd b c o, (cifsWorld.rvn_pwrite s fd b c o).1.ret < 0 ∧
      (cifsWorld.rvn_pwrite s fd b c o).1.errno = EINVAL :=
    fun _ _ _ _ _ => ⟨by simp [cifsWorld], rfl⟩
  have h2 : ∀ s fd, (cifsWorld._sync_directory_allowed s fd).1.ret =
      sampleCodes.SYNC_DIR_NOT_ALLOWED := fun _ _ => rfl
  obtain ⟨r, evs, hrun, htr, hlen, hret, hrc, hlast⟩ := h.2 h1 h2 3 (by decide)
  obtain ⟨evs1, htr1, hrule, _, hf⟩ := h.1 3 r hrun
  have hevs : evs1 = evs := List.append_cancel_left (htr1.symm.trans htr)
  subst hevs
  obtain ⟨g1, g2, _⟩ := hf (by rw [hrc]; decide)
  exact ⟨by decide, by decide, h1, h2, r, evs1, hrun, htr, hlen, hret, hrc, hlast, hrule,
    g1, g2⟩

/-! ## `_read_file` -/

theorem valid_read_codes {sc : StatusCodes} (h : sc.Valid) :
    sc.FAIL_READ_FILE ≠ sc.SUCCESS ∧ sc.FAIL_EOF ≠ sc.SUCCESS ∧
      sc.FAIL_READ_FILE ≠ sc.FAIL_EOF := by
  obtain ⟨_, hn, _⟩ := h
  simp only [StatusCodes.all, List.nodup_cons, List.mem_cons, not_or] at hn
  obtain ⟨h0, _, _, _, _, _, _, _, _, _, h10, _⟩ := hn
  exact ⟨fun e => h0.2.2.2.2.2.2.2.2.2.1 e.symm, fun e => h0.2.2.2.2.2.2.2.2.2.2.1 e.symm, h10.1⟩

theorem readTotal_nil : readTotal [] = 0 := rfl

theorem readTotal_cons (e : Event) (es : List Event) :
    readTotal (e :: es) = e.readResult + readTotal es := by
  simp [readTotal]

/-- The loop of `_read_file` from any state, for any world: how a run that returns ends. -/
theorem read_loop_spec {σ : Type} (w : World σ) (sc : StatusCodes) (hsc : sc.Valid)
    (fd required_size dec : Int) :
    ∀ (fuel : Nat) (m : Machine σ) (remain buf off : Int) (r : ReadRet σ),
      _read_file_loop w sc fd required_size dec fuel m remain buf off = some r →
      ∃ evs, r.m.trace = m.trace ++ evs ∧
        (r.rc = sc.SUCCESS → r.actual_size = required_size ∧ ∀ e ∈ evs, e.ret ≠ -1) ∧
        (r.rc ≠ sc.SUCCESS → r.actual_size < required_size ∧
          ∃ pre z, evs = pre ++ [z] ∧ (∀ e ∈ pre, e.ret ≠ -1 ∧ e.ret ≠ 0) ∧
            r.actual_size = required_size - remain + readTotal pre ∧
            r.detailed_error_code = z.errno ∧
            ((z.ret = 0 ∧ r.rc = sc.FAIL_EOF) ∨ (z.ret = -1 ∧ r.rc = sc.FAIL_READ_FILE))) := by
  obtain ⟨c1, c2, c3⟩ := valid_read_codes hsc
  intro fuel
  induction fuel with
  | zero => intro m remain buf off r h; simp [_read_file_loop] at h
  | succ n ih =>
    intro m remain buf off r hrun
    rw [_read_file_loop] at hrun
    by_cases hrem : remain > 0
    · rw [if_pos hrem] at hrun
      simp only [call_pread] at hrun
      generalize hrep : w.rvn_pread m.world fd buf remain off = a at hrun
      obtain ⟨rep, s1⟩ := a
      simp only at hrun
      set e0 : Event := ⟨Call.rvn_pread fd buf remain off, rep.ret, rep.errno⟩ with he0
      have hres : e0.readResult = rep.ret := rfl
      by_cases hm1 : rep.ret = -1
      · rw [if_pos hm1] at hrun
        simp only [Option.some.injEq] at hrun
        subst hrun
        refine ⟨[e0], rfl, fun h => absurd h c1, fun _ => ⟨?_, [], e0, rfl, ?_, ?_, rfl,
          Or.inr ⟨hm1, rfl⟩⟩⟩
        · show required_size - remain < required_size
          omega
        · simp
        · simp [readTotal_nil]
      · rw [if_neg hm1] at hrun
        by_cases hz : rep.ret = 0
        · rw [if_pos hz] at hrun
          simp only [Option.some.injEq] at hrun
          subst hrun
          refine ⟨[e0], rfl, fun h => absurd h c2, fun _ => ⟨?_, [], e0, rfl, ?_, ?_, rfl,
            Or.inl ⟨hz, rfl⟩⟩⟩
          · show required_size - remain < required_size
            omega
          · simp
          · simp [readTotal_nil]
        · rw [if_neg hz] at hrun
          obtain ⟨evs, htr, hs, hf⟩ := ih _ _ _ _ r hrun
          refine ⟨e0 :: evs, ?_, ?_, ?_⟩
          · rw [htr]; simp
          · intro h
            obtain ⟨h1, h2⟩ := hs h
            refine ⟨h1, ?_⟩
            intro e he
            rcases List.mem_cons.1 he with rfl | he
            · exact hm1
            · exact h2 e he
          · intro h
            obtain ⟨h1, pre, z, hp, hall, hact, hd, hlast⟩ := hf h
            refine ⟨h1, e0 :: pre, z, by rw [hp]; rfl, ?_, ?_, hd, hlast⟩
            · intro e he
              rcases List.mem_cons.1 he with rfl | he
              · exact ⟨hm1, hz⟩
              · exact hall e he
            · rw [hact, readTotal_cons, hres]; ring
    · rw [if_neg hrem] at hrun
      simp only [Option.some.injEq] at hrun
      subst hrun
      exact ⟨[], by simp, fun _ => ⟨rfl, by simp⟩, fun h => absurd rfl h⟩

/-- The loop of `_read_file` returns within `remain_size + 1` tests of its condition when
reads return `-1` or a count between `0` and the count asked. -/
theorem read_loop_returns {σ : Type} (w : World σ) (sc : StatusCodes) (fd required_size dec : Int)
    (hw : ∀ s fd b c o, (w.rvn_pread s fd b c o).1.ret = -1 ∨
      (0 ≤ (w.rvn_pread s fd b c o).1.ret ∧ (w.rvn_pread s fd b c o).1.ret ≤ c)) :
    ∀ (fuel : Nat) (m : Machine σ) (remain buf off : Int), 1 ≤ fuel → remain + 1 ≤ (fuel : Int) →
      ∃ r, _read_file_loop w sc fd required_size dec fuel m remain buf off = some r := by
  intro fuel
  induction fuel with
  | zero =>
    intro m remain buf off h
    exact absurd h (by omega)
  | succ n ih =>
    intro m remain buf off _ hfuel
    rw [_read_file_loop]
    by_cases hrem : remain > 0
    · rw [if_pos hrem]
      simp only [call_pread]
      have hrw := hw m.world fd buf remain off
      generalize hrep : w.rvn_pread m.world fd buf remain off = a at hrw
      obtain ⟨rep, s1⟩ := a
      simp only at hrw ⊢
      by_cases hm1 : rep.ret = -1
      · rw [if_pos hm1]; exact ⟨_, rfl⟩
      · rw [if_neg hm1]
        by_cases hz : rep.ret = 0
        · rw [if_pos hz]; exact ⟨_, rfl⟩
        · rw [if_neg hz]
          rcases hrw with h | h
          · exact absurd h hm1
          · apply ih <;> omega
    · rw [if_neg hrem]; exact ⟨_, rfl⟩

/-- Claim C2. For every `required_size` and every world: when `_read_file` returns
`SUCCESS`, `*actual_size` is `required_size`; when it returns `FAIL_EOF`, `*actual_size` is
strictly less than `required_size`, the last read returned `0` and `*actual_size` is the sum
of the results of the reads before it. When every read returns `-1` or a count between `0`
and the count asked, `required_size + 1` units of fuel are enough for it to return. -/
theorem read_file_actual_size {σ : Type} (w : World σ) (sc : StatusCodes) (hsc : sc.Valid)
    (m : Machine σ) (fd buffer required_size offset dec : Int) :
    (∀ fuel r, _read_file w sc fuel m fd buffer required_size offset dec = some r →
      (r.rc = sc.SUCCESS → r.actual_size = required_size) ∧
      (r.rc = sc.FAIL_EOF → r.actual_size < required_size ∧
        ∃ pre z, r.m.trace = m.trace ++ pre ++ [z] ∧ z.ret = 0 ∧
          r.actual_size = readTotal pre)) ∧
    ((∀ s fd b c o, (w.rvn_pread s fd b c o).1.ret = -1 ∨
        (0 ≤ (w.rvn_pread s fd b c o).1.ret ∧ (w.rvn_pread s fd b c o).1.ret ≤ c)) →
      ∀ fuel : Nat, 1 ≤ fuel → required_size + 1 ≤ (fuel : Int) →
        ∃ r, _read_file w sc fuel m fd buffer required_size offset dec = some r) := by
  obtain ⟨c1, c2, c3⟩ := valid_read_codes hsc
  constructor
  · intro fuel r hrun
    obtain ⟨evs, htr, hs, hf⟩ :=
      read_loop_spec w sc hsc fd required_size dec fuel m required_size buffer offset r hrun
    refine ⟨fun h => (hs h).1, ?_⟩
    intro h
    have hne : r.rc ≠ sc.SUCCESS := by rw [h]; exact c2
    obtain ⟨h1, pre, z, hp, _, hact, _, hlast⟩ := hf hne
    refine ⟨h1, pre, z, by rw [htr, hp, List.append_assoc], ?_, by rw [hact]; ring⟩
    rcases hlast with h0 | h0
    · exact h0.1
    · exact absurd (h0.2.symm.trans h) c3
  · intro hw fuel hfuel1 hfuel
    exact read_loop_returns w sc fd required_size dec hw fuel m required_size buffer offset
      hfuel1 hfuel

/-- An instance: a file that ends after two of the three bytes asked. -/
theorem read_file_actual_size_witness :
    ∃ r, _read_file shortFileWorld sampleCodes 5 ⟨0, 0, []⟩ 4 1000 3 0 0 = some r ∧
      r.rc = sampleCodes.FAIL_EOF ∧
      (r.rc = sampleCodes.SUCCESS → r.actual_size = 3) ∧
      (r.rc = sampleCodes.FAIL_EOF → r.actual_size < 3 ∧
        ∃ pre z, r.m.trace = [] ++ pre ++ [z] ∧ z.ret = 0 ∧ r.actual_size = readTotal pre) :=
  ⟨_, rfl, rfl, (read_file_actual_size shortFileWorld sampleCodes (by decide) ⟨0, 0, []⟩ 4 1000
    3 0 0).1 5 _ rfl⟩

/-! ## `_read_file`: a failed read -/

theorem afterReads_step {σ : Type} (w : World σ) (fd : Int) (i : Nat) (s : ReadState σ) :
    afterReads w fd i (readStep w fd s) = afterReads w fd (i + 1) s := rfl

theorem preadResult_step {σ : Type} (w : World σ) (fd : Int) (i : Nat) (s : ReadState σ) :
    preadResult w fd i (readStep w fd s) = preadResult w fd (i + 1) s := rfl

/-- The loop of `_read_file` returns at the first read that returns `-1`. -/
theorem read_loop_stops {σ : Type} (w : World σ) (sc : StatusCodes)
    (fd required_size dec : Int) :
    ∀ (k : Nat) (s : ReadState σ) (fuel : Nat),
      (∀ i, i ≤ k → 0 < (afterReads w fd i s).remain_size) →
      (∀ i, i < k → preadResult w fd i s ≠ -1 ∧ preadResult w fd i s ≠ 0) →
      preadResult w fd k s = -1 → k + 1 ≤ fuel →
      _read_file_loop w sc fd required_size dec fuel s.m s.remain_size s.buffer s.offset =
        some ⟨sc.FAIL_READ_FILE, required_size - (afterReads w fd k s).remain_size,
          (readStep w fd (afterReads w fd k s)).m.errno,
          (readStep w fd (afterReads w fd k s)).m⟩ := by
  intro k
  induction k with
  | zero =>
    intro s fuel hrem _ hfail hfuel
    obtain ⟨n, rfl⟩ : ∃ n, fuel = n + 1 := ⟨fuel - 1, by omega⟩
    have h0 : s.remain_size > 0 := hrem 0 (le_refl _)
    have h1 : (call_pread w s.m fd s.buffer s.remain_size s.offset).1 = -1 := hfail
    rw [_read_file_loop, if_pos h0]
    simp only
    rw [if_pos h1]
    rfl
  | succ k ih =>
    intro s fuel hrem hgo hfail hfuel
    obtain ⟨n, rfl⟩ : ∃ n, fuel = n + 1 := ⟨fuel - 1, by omega⟩
    have h0 : s.remain_size > 0 := hrem 0 (Nat.zero_le _)
    have h1 : ¬ (call_pread w s.m fd s.buffer s.remain_size s.offset).1 = -1 :=
      (hgo 0 (Nat.succ_pos _)).1
    have h2 : ¬ (call_pread w s.m fd s.buffer s.remain_size s.offset).1 = 0 :=
      (hgo 0 (Nat.succ_pos _)).2
    rw [_read_file_loop, if_pos h0]
    simp only
    rw [if_neg h1, if_neg h2]
    exact ih (readStep w fd s) n
      (fun i hi => by rw [afterReads_step]; exact hrem (i + 1) (by omega))
      (fun i hi => by rw [preadResult_step]; exact hgo (i + 1) (by omega))
      (by rw [preadResult_step]; exact hfail) (by omega)

/-- The log of `k` successive positional reads: `k` entries, all of them positional reads
on `fd`, with the results the reads returned, which sum to what was taken off
`remain_size`. -/
theorem afterReads_log {σ : Type} (w : World σ) (fd : Int) :
    ∀ (k : Nat) (s : ReadState σ),
      ∃ pre, (afterReads w fd k s).m.trace = s.m.trace ++ pre ∧
        pre.map Event.ret = (List.range k).map (fun i => preadResult w fd i s) ∧
        (∀ e ∈ pre, ∃ b c o, e.call = Call.rvn_pread fd b c o) ∧
        readTotal pre = s.remain_size - (afterReads w fd k s).remain_size := by
  intro k
  induction k with
  | zero => intro s; exact ⟨[], by simp [afterReads], rfl, by simp, by simp [afterReads, readTotal]⟩
  | succ k ih =>
    intro s
    obtain ⟨pre, h1, h2, h3, h4⟩ := ih (readStep w fd s)
    refine ⟨⟨Call.rvn_pread fd s.buffer s.remain_size s.offset,
      (call_pread w s.m fd s.buffer s.remain_size s.offset).1,
      (call_pread w s.m fd s.buffer s.remain_size s.offset).2.errno⟩ :: pre, ?_, ?_, ?_, ?_⟩
    · rw [← afterReads_step, h1]
      simp [readStep, call_pread]
    · rw [List.range_succ_eq_map, List.map_cons, List.map_cons, List.map_map, h2]
      rfl
    · intro e he
      rcases List.mem_cons.1 he with rfl | he
      · exact ⟨_, _, _, rfl⟩
      · exact h3 e he
    · rw [readTotal_cons, h4, ← afterReads_step]
      simp only [Event.readResult, readStep]
      ring

/-- Claim C10 fails for a negative result other than `-1`: the first read returns `-2`,
`_read_file` goes on, asks for twelve bytes at offset `-2` and returns `SUCCESS` with
`*actual_size = 10`. -/
theorem read_file_continues_after_minus_two :
    (_read_file oddReadWorld sampleCodes 5 ⟨0, 0, []⟩ 4 1000 10 0 0).map
        (fun r => (r.rc, r.actual_size, r.m.trace)) =
      some (sampleCodes.SUCCESS, 10,
        [⟨Call.rvn_pread 4 1000 10 0, -2, 5⟩, ⟨Call.rvn_pread 4 998 12 (-2), 12, 0⟩]) := by
  decide

/-- Claim C10, for the result `-1`. When the positional reads `_read_file` issues one
after the other are such that read number `k` is reached (what remains to be read is
positive before each of the reads `0` to `k`, and none of the reads before number `k`
returns `-1` or `0`) and read number `k` returns `-1`, then `_read_file` returns once it is
given `k + 1` units of fuel: its log is these `k + 1` reads and nothing after them, the
result is `FAIL_READ_FILE`, `detailed_error_code` is the `errno` of the failed read and
`*actual_size` is the sum of the results of the `k` reads before it. -/
theorem read_file_stops_at_failed_read {σ : Type} (w : World σ) (sc : StatusCodes)
    (m : Machine σ) (fd buffer required_size offset dec : Int) (k : Nat)
    (hremain : ∀ i, i ≤ k →
      0 < (afterReads w fd i ⟨m, required_size, buffer, offset⟩).remain_size)
    (hgo : ∀ i, i < k → preadResult w fd i ⟨m, required_size, buffer, offset⟩ ≠ -1 ∧
      preadResult w fd i ⟨m, required_size, buffer, offset⟩ ≠ 0)
    (hfail : preadResult w fd k ⟨m, required_size, buffer, offset⟩ = -1)
    (fuel : Nat) (hfuel : k + 1 ≤ fuel) :
    ∃ r pre z, _read_file w sc fuel m fd buffer required_size offset dec = some r ∧
      r.rc = sc.FAIL_READ_FILE ∧ r.m.trace = m.trace ++ pre ++ [z] ∧
      pre.map Event.ret =
        (List.range k).map (fun i => preadResult w fd i ⟨m, required_size, buffer, offset⟩) ∧
      (∀ e ∈ pre, ∃ b c o, e.call = Call.rvn_pread fd b c o) ∧
      (∃ b c o, z.call = Call.rvn_pread fd b c o) ∧ z.ret = -1 ∧
      r.detailed_error_code = z.errno ∧ r.actual_size = readTotal pre := by
  have hrun := read_loop_stops w sc fd required_size dec k ⟨m, required_size, buffer, offset⟩
    fuel hremain hgo hfail hfuel
  obtain ⟨pre, h1, h2, h3, h4⟩ := afterReads_log w fd k ⟨m, required_size, buffer, offset⟩
  refine ⟨_, pre, ⟨Call.rvn_pread fd
      (afterReads w fd k ⟨m, required_size, buffer, offset⟩).buffer
      (afterReads w fd k ⟨m, required_size, buffer, offset⟩).remain_size
      (afterReads w fd k ⟨m, required_size, buffer, offset⟩).offset, -1,
      (readStep w fd (afterReads w fd k ⟨m, required_size, buffer, offset⟩)).m.errno⟩,
    hrun, rfl, ?_, h2, h3, ⟨_, _, _, rfl⟩, rfl, rfl, ?_⟩
  · have hk : (call_pread w (afterReads w fd k ⟨m, required_size, buffer, offset⟩).m fd
        (afterReads w fd k ⟨m, required_size, buffer, offset⟩).buffer
        (afterReads w fd k ⟨m, required_size, buffer, offset⟩).remain_size
        (afterReads w fd k ⟨m, required_size, buffer, offset⟩).offset).1 = -1 := hfail
    simp only [readStep, call_pread] at hk ⊢
    rw [h1, hk]
  · simp only
    rw [h4]

/-- An instance: the second read fails with `errno` 5 after two bytes were read. -/
theorem read_file_stops_at_failed_read_witness :
    (∀ i, i ≤ 1 → 0 < (afterReads brokenDiskWorld 4 i ⟨⟨0, 0, []⟩, 3, 1000, 0⟩).remain_size) ∧
    (∀ i, i < 1 → preadResult brokenDiskWorld 4 i ⟨⟨0, 0, []⟩, 3, 1000, 0⟩ ≠ -1 ∧
      preadResult brokenDiskWorld 4 i ⟨⟨0, 0, []⟩, 3, 1000, 0⟩ ≠ 0) ∧
    preadResult brokenDiskWorld 4 1 ⟨⟨0, 0, []⟩, 3, 1000, 0⟩ = -1 ∧
    ∃ r pre z, _read_file brokenDiskWorld sampleCodes 2 ⟨0, 0, []⟩ 4 1000 3 0 0 = some r ∧
      r.rc = sampleCodes.FAIL_READ_FILE ∧ r.m.trace = [] ++ pre ++ [z] ∧
      pre.map Event.ret =
        (List.range 1).map (fun i => preadResult brokenDiskWorld 4 i ⟨⟨0, 0, []⟩, 3, 1000, 0⟩) ∧
      (∀ e ∈ pre, ∃ b c o, e.call = Call.rvn_pread 4 b c o) ∧
      (∃ b c o, z.call = Call.rvn_pread 4 b c o) ∧ z.ret = -1 ∧
      r.detailed_error_code = z.errno ∧ r.actual_size = readTotal pre :=
  ⟨by intro i hi; interval_cases i <;> decide,
    by intro i hi; interval_cases i; decide,
    by decide,
    read_file_stops_at_failed_read brokenDiskWorld sampleCodes ⟨0, 0, []⟩ 4 1000 3 0 0 1
      (by intro i hi; interval_cases i <;> decide)
      (by intro i hi; interval_cases i; decide)
      (by decide) 2 (by decide)⟩

/-! ## `_allocate_file_space`: the retry loop -/

theorem afterFallocates_succ {σ : Type} (w : World σ) (fd size : Int) (k : Nat) (m : Machine σ) :
    afterFallocates w fd size (k + 1) m =
      (call_fallocate w (afterFallocates w fd size k m) fd 0 size).2 := by
  induction k generalizing m with
  | zero => rfl
  | succ k ih =>
    show afterFallocates w fd size (k + 1) (call_fallocate w m fd 0 size).2 = _
    rw [ih]
    rfl

theorem afterFallocates_trace {σ : Type} (w : World σ) (fd size : Int) (k : Nat) (m : Machine σ) :
    ∃ evs, (afterFallocates w fd size k m).trace = m.trace ++ evs ∧ evs.length = k ∧
      (∀ e ∈ evs, e.call = Call._rvn_fallocate fd 0 size) ∧
      ∀ i (h : i < evs.length), (evs.get ⟨i, h⟩).ret = fallocateResult w fd size i m := by
  induction k generalizing m with
  | zero => exact ⟨[], by simp [afterFallocates], rfl, by simp, by simp⟩
  | succ k ih =>
    obtain ⟨evs, h1, h2, h3, h4⟩ := ih (call_fallocate w m fd 0 size).2
    refine ⟨⟨Call._rvn_fallocate fd 0 size, (call_fallocate w m fd 0 size).1,
      (call_fallocate w m fd 0 size).2.errno⟩ :: evs, ?_, by simp [h2], ?_, ?_⟩
    · show (afterFallocates w fd size k (call_fallocate w m fd 0 size).2).trace = _
      rw [h1]; simp [call_fallocate]
    · intro e he
      rcases List.mem_cons.1 he with rfl | he
      · rfl
      · exact h3 e he
    · intro i hi
      cases i with
      | zero => rfl
      | succ j =>
        simp only [List.length_cons] at hi
        have := h4 j (by omega)
        simpa [fallocateResult, afterFallocates] using this

/-- The loop of `_allocate_file_space` goes through `k` interrupted calls and is then in
the state the `k` calls leave. -/
theorem allocate_loop_skip {σ : Type} (w : World σ) (sc : StatusCodes) (fuel : Nat)
    (fd size : Int) :
    ∀ (k n : Nat) (m : Machine σ) (dec res : Int),
      (∀ i, i < k → fallocateResult w fd size i m = EINTR) → k ≤ n →
      _allocate_loop w sc fuel fd size n m dec res =
        _allocate_loop w sc fuel fd size (n - k) (afterFallocates w fd size k m)
          (if k = 0 then dec else (afterFallocates w fd size k m).errno)
          (if k = 0 then res else EINTR) := by
  intro k
  induction k with
  | zero => intro n m dec res _ _; rfl
  | succ k ih =>
    intro n m dec res hi hk
    obtain ⟨n1, rfl⟩ : ∃ n1, n = n1 + 1 := ⟨n - 1, by omega⟩
    have h0 : (call_fallocate w m fd 0 size).1 = EINTR := hi 0 (by omega)
    rw [_allocate_loop]
    simp only [h0]
    rw [if_neg (by decide), if_pos trivial]
    rw [ih n1 (call_fallocate w m fd 0 size).2 _ _ (fun i h => hi (i + 1) (by omega)) (by omega)]
    have e1 : n1 + 1 - (k + 1) = n1 - k := by omega
    rw [e1]
    show _ = _allocate_loop w sc fuel fd size (n1 - k)
      (afterFallocates w fd size k (call_fallocate w m fd 0 size).2) _ _
    by_cases hk0 : k = 0
    · subst hk0; rfl
    · simp [hk0]
      rfl

theorem toInt32_eq {x : Int} (h1 : -2147483648 ≤ x) (h2 : x < 2147483648) : toInt32 x = x := by
  unfold toInt32
  omega

/-- The fallback of `_allocate_file_space` returns what its `_pwrite` returns: narrowing
leaves a status code as it is. -/
theorem allocate_fallback_eq {σ : Type} (w : World σ) (sc : StatusCodes) (hsc : sc.Valid)
    (fuel : Nat) (m : Machine σ) (fd size dec : Int) :
    _allocate_fallback w sc fuel m fd size dec =
      (_pwrite w sc fuel m fd [0] 1 (subU64 (toU64 size) 1) dec).map
        (fun p => ⟨p.rc, if p.rc ≠ sc.SUCCESS then p.m.errno else p.detailed_error_code, p.m⟩) := by
  unfold _allocate_fallback
  cases hp : _pwrite w sc fuel m fd [0] 1 (subU64 (toU64 size) 1) dec with
  | none => rfl
  | some p =>
    obtain ⟨evs, _, _, _, _, hfail⟩ := pwrite_loop_retry w sc hsc fd [0] 1
      (subU64 (toU64 size) 1) dec fuel m 0 3 p (by decide) (by decide) (by decide) hp
    have hrange : -2147483648 ≤ p.rc ∧ p.rc < 2147483648 := by
      obtain ⟨_, _, hr⟩ := hsc
      by_cases h : p.rc = sc.SUCCESS
      · rw [h]; exact hr _ (by simp [StatusCodes.all])
      · rcases (hfail h).1 with h1 | h1
        · rw [h1]; exact hr _ (by simp [StatusCodes.all])
        · rw [h1]; exact hr _ (by simp [StatusCodes.all])
    simp only [Option.map_some']
    rw [toInt32_eq hrange.1 hrange.2]
    by_cases h : p.rc = sc.SUCCESS
    · simp [h]
    · simp [h]

/-- The result of `_allocate_file_space` is decided by the first pre-allocation result
that is not `EINTR`. -/
theorem allocate_first_answer {σ : Type} (w : World σ) (sc : StatusCodes) (fuel : Nat)
    (m : Machine σ) (fd size dec : Int) (k : Nat) (hk : k < 1024)
    (hintr : ∀ i, i < k → fallocateResult w fd size i m = EINTR)
    (hne : fallocateResult w fd size k m ≠ EINTR) :
    _allocate_file_space w sc fuel m fd size dec =
      if fallocateResult w fd size k m = EBADF ∨ fallocateResult w fd size k m = EINVAL ∨
          fallocateResult w fd size k m = EFBIG then
        _allocate_fallback w sc fuel (afterFallocates w fd size (k + 1) m) fd size
          (if k = 0 then dec else (afterFallocates w fd size k m).errno)
      else if fallocateResult w fd size k m = sc.SUCCESS then
        some ⟨sc.SUCCESS, if k = 0 then dec else (afterFallocates w fd size k m).errno,
          afterFallocates w fd size (k + 1) m⟩
      else
        some ⟨sc.FAIL_ALLOC_FILE, fallocateResult w fd size k m,
          afterFallocates w fd size (k + 1) m⟩ := by
  unfold _allocate_file_space
  rw [allocate_loop_skip w sc fuel fd size k 1024 m dec 0 hintr (by omega)]
  obtain ⟨n, hn⟩ : ∃ n, 1024 - k = n + 1 := ⟨1024 - k - 1, by omega⟩
  rw [hn, _allocate_loop, afterFallocates_succ]
  simp only [fallocateResult] at hne ⊢
  simp only [if_neg hne]

/-- Claim C9. When the first 1024 pre-allocation calls all return `EINTR`,
`_allocate_file_space` issues exactly those 1024 calls and nothing else and returns
`EINTR`, which is not `SUCCESS`. When call number `k < 1024` is the first to return
something else, exactly `k + 1` pre-allocation calls are issued and the result is
`SUCCESS` for `0`, the result of the one-byte `_pwrite` for `EBADF`, `EINVAL` and `EFBIG`,
and `FAIL_ALLOC_FILE` with `detailed_error_code` that value for anything else. -/
theorem allocate_interrupted_or_first_answer {σ : Type} (w : World σ) (sc : StatusCodes)
    (hsc : sc.Valid) (fuel : Nat) (m : Machine σ) (fd size dec : Int) :
    ((∀ i, i < 1024 → fallocateResult w fd size i m = EINTR) →
      ∃ r evs, _allocate_file_space w sc fuel m fd size dec = some r ∧ r.rc = EINTR ∧
        r.rc ≠ sc.SUCCESS ∧ r.m.trace = m.trace ++ evs ∧ evs.length = 1024 ∧
        ∀ e ∈ evs, e.call = Call._rvn_fallocate fd 0 size) ∧
    (∀ k, k < 1024 → (∀ i, i < k → fallocateResult w fd size i m = EINTR) →
      fallocateResult w fd size k m ≠ EINTR →
      ∃ m1 d1 evs, m1.trace = m.trace ++ evs ∧ evs.length = k + 1 ∧
        (∀ e ∈ evs, e.call = Call._rvn_fallocate fd 0 size) ∧
        (fallocateResult w fd size k m = 0 →
          _allocate_file_space w sc fuel m fd size dec = some ⟨sc.SUCCESS, d1, m1⟩) ∧
        (fallocateResult w fd size k m = EBADF ∨ fallocateResult w fd size k m = EINVAL ∨
            fallocateResult w fd size k m = EFBIG →
          _allocate_file_space w sc fuel m fd size dec =
            (_pwrite w sc fuel m1 fd [0] 1 (subU64 (toU64 size) 1) d1).map
              (fun p => ⟨p.rc, if p.rc ≠ sc.SUCCESS then p.m.errno else p.detailed_error_code,
                p.m⟩)) ∧
        (fallocateResult w fd size k m ≠ 0 → fallocateResult w fd size k m ≠ EBADF →
          fallocateResult w fd size k m ≠ EINVAL → fallocateResult w fd size k m ≠ EFBIG →
          _allocate_file_space w sc fuel m fd size dec =
            some ⟨sc.FAIL_ALLOC_FILE, fallocateResult w fd size k m, m1⟩)) := by
  have hS : sc.SUCCESS = 0 := hsc.1
  constructor
  · intro hall
    obtain ⟨evs, h1, h2, h3, _⟩ := afterFallocates_trace w fd size 1024 m
    refine ⟨⟨EINTR, (afterFallocates w fd size 1024 m).errno, afterFallocates w fd size 1024 m⟩,
      evs, ?_, rfl, ?_, h1, h2, h3⟩
    · unfold _allocate_file_space
      rw [allocate_loop_skip w sc fuel fd size 1024 1024 m dec 0 hall (le_refl _)]
      rfl
    · show EINTR ≠ sc.SUCCESS
      rw [hS]; decide
  · intro k hk hintr hne
    obtain ⟨evs, h1, h2, h3, _⟩ := afterFallocates_trace w fd size (k + 1) m
    have hfirst := allocate_first_answer w sc fuel m fd size dec k hk hintr hne
    refine ⟨afterFallocates w fd size (k + 1) m,
      if k = 0 then dec else (afterFallocates w fd size k m).errno, evs, h1, h2, h3, ?_, ?_, ?_⟩
    · intro h0
      rw [hfirst, h0, if_neg (by decide), if_pos hS.symm]
    · intro hv
      rw [hfirst, if_pos hv, allocate_fallback_eq w sc hsc]
    · intro h0 h1 h2 h3
      rw [hfirst, if_neg (by simp [h1, h2, h3]), if_neg (by rw [hS]; exact h0)]

/-- An instance: a pre-allocation that is always interrupted. -/
theorem allocate_interrupted_or_first_answer_witness :
    ∃ r evs, _allocate_file_space interruptedWorld sampleCodes 3 ⟨0, 0, []⟩ 4 8192 0 = some r ∧
      r.rc = EINTR ∧ r.rc ≠ sampleCodes.SUCCESS ∧ r.m.trace = [] ++ evs ∧ evs.length = 1024 ∧
      ∀ e ∈ evs, e.call = Call._rvn_fallocate 4 0 8192 :=
  (allocate_interrupted_or_first_answer interruptedWorld sampleCodes (by decide) 3 ⟨0, 0, []⟩
    4 8192 0).1 (fun _ _ => rfl)

/-! ## `_allocate_file_space`: the fallback write -/



theorem fileLength_nil (L : Int) : fileLength L [] = L := rfl

theorem slashesFrom_unfold (path : List Char) (start : Nat) (h : start < path.length) :
    slashesFrom path start =
      if path[start]? = some '/' then start :: slashesFrom path (start + 1)
      else slashesFrom path (start + 1) := by
  unfold slashesFrom
  obtain ⟨n, hn⟩ : ∃ n, path.length - start = n + 1 := ⟨path.length - start - 1, by omega⟩
  have hn1 : path.length - (start + 1) = n := by omega
  rw [hn, hn1, List.range'_succ, List.filter_cons]
  by_cases hc : path[start]? = some '/'
  · simp [hc]
  · simp [hc]

theorem slashesFrom_of_le (path : List Char) (start : Nat) (h : path.length ≤ start) :
    slashesFrom path start = [] := by
  unfold slashesFrom
  have : path.length - start = 0 := by omega
  rw [this]; rfl

theorem strchr_from_spec (path : List Char) :
    ∀ (n start : Nat), path.length - start = n →
      match strchr_from '/' (path.drop start) start with
      | none => slashesFrom path start = []
      | some i => start ≤ i ∧ i < path.length ∧
          slashesFrom path start = i :: slashesFrom path (i + 1) := by
  intro n
  induction n with
  | zero =>
    intro start h
    have hle : path.length ≤ start := by omega
    rw [List.drop_eq_nil_of_le hle]
    simp only [strchr_from]
    exact slashesFrom_of_le path start hle
  | succ n ih =>
    intro start h
    have hlt : start < path.length := by omega
    rw [List.drop_eq_getElem_cons hlt]
    simp only [strchr_from]
    rw [slashesFrom_unfold path start hlt]
    have hget : path[start]? = some path[start] := List.getElem?_eq_getElem hlt
    by_cases hc : path[start] = '/'
    · rw [if_pos hc]
      simp only [hget, hc, if_true]
      exact ⟨le_refl _, hlt, trivial⟩
    · rw [if_neg hc]
      have hne : ¬ path[start]? = some '/' := by
        rw [hget]; simpa using hc
      rw [if_neg hne]
      have := ih (start + 1) (by omega)
      revert this
      cases strchr_from '/' (List.drop (start + 1) path) (start + 1) with
      | none => exact fun h => h
      | some i => exact fun h => ⟨by omega, h.2.1, h.2.2⟩

/-- What `strchr` finds from `start` on is the first of the strings examined from `start`
on. -/
theorem strchr_spec (path : List Char) (start : Nat) :
    match strchr path start '/' with
    | none => examinedFrom path start = [path]
    | some i => start ≤ i ∧ i < path.length ∧
        examinedFrom path start = path.take i :: examinedFrom path (i + 1) := by
  have := strchr_from_spec path (path.length - start) start rfl
  unfold strchr examinedFrom
  revert this
  cases strchr_from '/' (List.drop start path) start with
  | none => intro h; simp only at h ⊢; rw [h]; rfl
  | some i =>
    intro h
    simp only at h ⊢
    refine ⟨h.1, h.2.1, ?_⟩
    rw [h.2.2]; rfl

/-- The loop of `_ensure_path_exists` is the loop body run over the strings examined. -/
theorem ensure_path_loop_eq_walk {σ : Type} (w : World σ) (sc : StatusCodes)
    (path : List Char) :
    ∀ (fuel : Nat) (m : Machine σ) (c : Nat) (dec : Int), c < path.length →
      path.length - c ≤ fuel →
      _ensure_path_loop w sc path fuel m c dec =
        some (walk w sc (examinedFrom path (c + 1)) m dec) := by
  intro fuel
  induction fuel with
  | zero => intro m c dec h1 h2; omega
  | succ n ih =>
    intro m c dec hc hfuel
    rw [_ensure_path_loop]
    have hs := strchr_spec path (c + 1)
    revert hs
    cases strchr path (c + 1) '/' with
    | none =>
      intro hs
      simp only at hs ⊢
      rw [hs]
      simp only [walk]
      cases _ensure_path_body w sc m path dec <;> rfl
    | some i =>
      intro hs
      simp only at hs ⊢
      rw [hs.2.2]
      simp only [walk]
      cases _ensure_path_body w sc m (List.take i path) dec with
      | exit r => rfl
      | next m1 d1 => exact ih m1 i d1 hs.2.1 (by omega)

theorem dupOf_length_pos (path : List Char) : 0 < (dupOf path).length := by
  unfold dupOf
  split
  · decide
  · rename_i h
    exact List.length_pos.2 h

/-- The function `_ensure_path_exists` always returns: `FAIL_NOMEM` when `strdup` fails,
the walk over the strings examined otherwise. -/
theorem ensure_path_exists_eq {σ : Type} (w : World σ) (sc : StatusCodes) (m : Machine σ)
    (path : List Char) (dec : Int) :
    _ensure_path_exists w sc m path dec =
      if (call_strdup w m (dupOf path)).1 = false then
        some ⟨sc.FAIL_NOMEM, (call_strdup w m (dupOf path)).2.errno,
          (call_strdup w m (dupOf path)).2⟩
      else some (walk w sc (examined (dupOf path)) (call_strdup w m (dupOf path)).2 dec) := by
  unfold _ensure_path_exists
  show (if (call_strdup w m (dupOf path)).1 = false then _
    else _ensure_path_loop w sc (dupOf path) (dupOf path).length _ 0 dec) = _
  rw [ensure_path_loop_eq_walk w sc (dupOf path) _ _ 0 dec (dupOf_length_pos path) (by omega)]
  rfl

theorem valid_path_codes {sc : StatusCodes} (h : sc.Valid) :
    sc.FAIL_STAT_FILE ≠ sc.SUCCESS ∧ sc.FAIL_CREATE_DIRECTORY ≠ sc.SUCCESS ∧
      sc.FAIL_BROKEN_LINK ≠ sc.SUCCESS ∧ sc.FAIL_NOT_DIRECTORY ≠ sc.SUCCESS ∧
      sc.FAIL_NOMEM ≠ sc.SUCCESS ∧ sc.FAIL_BROKEN_LINK ≠ sc.FAIL_CREATE_DIRECTORY := by
  obtain ⟨_, hn, _⟩ := h
  simp only [StatusCodes.all, List.nodup_cons, List.mem_cons, not_or] at hn
  obtain ⟨h0, _, _, _, _, _, h6, _⟩ := hn
  exact ⟨fun e => h0.2.2.2.2.1 e.symm, fun e => h0.2.2.2.2.2.1 e.symm,
    fun e => h0.2.2.2.2.2.2.1 e.symm, fun e => h0.2.2.2.2.2.2.2.1 e.symm,
    fun e => h0.2.2.2.1 e.symm, fun e => h6.1 e.symm⟩

theorem body_directory {σ : Type} (w : World σ) (sc : StatusCodes) (m : Machine σ)
    (p : List Char) (dec : Int)
    (h : (w.stat m.world p).1.ret ≠ -1 ∧ S_ISDIR (w.stat m.world p).1.st_mode = true) :
    ∃ m1, _ensure_path_body w sc m p dec = .next m1 dec ∧
      m1.trace.map (fun e => e.call) = m.trace.map (fun e => e.call) ++ [Call.stat p] := by
  simp only [_ensure_path_body, call_stat]
  rw [if_neg h.1, if_neg (by simp [h.2])]
  exact ⟨_, rfl, by simp⟩

theorem body_not_directory {σ : Type} (w : World σ) (sc : StatusCodes) (m : Machine σ)
    (p : List Char) (dec : Int)
    (h : (w.stat m.world p).1.ret ≠ -1 ∧ S_ISDIR (w.stat m.world p).1.st_mode = false) :
    ∃ r, _ensure_path_body w sc m p dec = .exit r ∧ r.rc = sc.FAIL_NOT_DIRECTORY ∧
      r.detailed_error_code = ENOTDIR ∧
      r.m.trace.map (fun e => e.call) = m.trace.map (fun e => e.call) ++ [Call.stat p] := by
  simp only [_ensure_path_body, call_stat]
  rw [if_neg h.1, if_pos h.2]
  exact ⟨_, rfl, rfl, rfl, by simp⟩

theorem walk_not_directory {σ : Type} (w : World σ) (sc : StatusCodes) (p : List Char)
    (after : List (List Char))
    (hp : ∀ s, (w.stat s p).1.ret ≠ -1 ∧ S_ISDIR (w.stat s p).1.st_mode = false) :
    ∀ (before : List (List Char)) (m : Machine σ) (dec : Int),
      (∀ q ∈ before, ∀ s, (w.stat s q).1.ret ≠ -1 ∧ S_ISDIR (w.stat s q).1.st_mode = true) →
      (walk w sc (before ++ p :: after) m dec).rc = sc.FAIL_NOT_DIRECTORY ∧
      (walk w sc (before ++ p :: after) m dec).detailed_error_code = ENOTDIR ∧
      (walk w sc (before ++ p :: after) m dec).m.trace.map (fun e => e.call) =
        m.trace.map (fun e => e.call) ++ (before ++ [p]).map Call.stat := by
  intro before
  induction before with
  | nil =>
    intro m dec _
    obtain ⟨r, hr, h1, h2, h3⟩ := body_not_directory w sc m p dec (hp _)
    simp only [List.nil_append, walk, hr]
    exact ⟨h1, h2, by rw [h3]; rfl⟩
  | cons q qs ih =>
    intro m dec hq
    obtain ⟨m1, hm, ht⟩ := body_directory w sc m q dec (hq q (List.mem_cons_self _ _) _)
    simp only [List.cons_append, walk, hm]
    obtain ⟨g1, g2, g3⟩ := ih m1 dec (fun x hx => hq x (List.mem_cons_of_mem _ hx))
    exact ⟨g1, g2, g3.trans (by rw [ht]; simp)⟩

/-- Claim C6. When the strings examined for a path are `before`, then `p`, then `after`,
every string of `before` is an existing directory and `p` exists and is not a directory,
`_ensure_path_exists` returns `FAIL_NOT_DIRECTORY` with `detailed_error_code = ENOTDIR`,
and its calls are the `strdup` and one `stat` for each string of `before` and for `p`: no
`mkdir` and no directory sync, for `p` or for anything after it. -/
theorem ensure_path_not_directory {σ : Type} (w : World σ) (sc : StatusCodes) (m : Machine σ)
    (path : List Char) (dec : Int) (before : List (List Char)) (p : List Char)
    (after : List (List Char))
    (hdup : (w.strdup m.world (dupOf path)).1.ok = true)
    (hsplit : examined (dupOf path) = before ++ p :: after)
    (hbefore : ∀ q ∈ before, ∀ s,
      (w.stat s q).1.ret ≠ -1 ∧ S_ISDIR (w.stat s q).1.st_mode = true)
    (hp : ∀ s, (w.stat s p).1.ret ≠ -1 ∧ S_ISDIR (w.stat s p).1.st_mode = false) :
    ∃ r, _ensure_path_exists w sc m path dec = some r ∧ r.rc = sc.FAIL_NOT_DIRECTORY ∧
      r.detailed_error_code = ENOTDIR ∧
      r.m.trace.map (fun e => e.call) = m.trace.map (fun e => e.call) ++
        Call.strdup (dupOf path) :: (before ++ [p]).map Call.stat := by
  rw [ensure_path_exists_eq]
  have hd : ¬ (call_strdup w m (dupOf path)).1 = false := by
    simp [call_strdup, hdup]
  rw [if_neg hd, hsplit]
  obtain ⟨g1, g2, g3⟩ := walk_not_directory w sc p after hp before
    (call_strdup w m (dupOf path)).2 dec hbefore
  refine ⟨_, rfl, g1, g2, ?_⟩
  rw [g3]
  simp [call_strdup]

/-- An instance: `"a/b/c"` where `a` is a directory and `a/b` a regular file. -/
theorem ensure_path_not_directory_witness :
    ∃ r, _ensure_path_exists fileInTheWayWorld sampleCodes ⟨0, 0, []⟩ "a/b/c".toList 0 = some r ∧
      r.rc = sampleCodes.FAIL_NOT_DIRECTORY ∧ r.detailed_error_code = ENOTDIR ∧
      r.m.trace.map (fun e => e.call) = [] ++
        Call.strdup "a/b/c".toList :: (["a".toList] ++ ["a/b".toList]).map Call.stat :=
  ensure_path_not_directory fileInTheWayWorld sampleCodes ⟨0, 0, []⟩ "a/b/c".toList 0
    ["a".toList] "a/b".toList ["a/b/c".toList] rfl (by decide)
    (by
      intro q hq s
      simp only [List.mem_singleton] at hq
      subst hq
      exact ⟨by simp [fileInTheWayWorld], by simp [fileInTheWayWorld, S_ISDIR]; decide⟩)
    (fun _ => ⟨by simp [fileInTheWayWorld], by simp [fileInTheWayWorld, S_ISDIR]; decide⟩)

/-! ## `_ensure_path_exists`: a failed `mkdir` -/

theorem walk_append {σ : Type} (w : World σ) (sc : StatusCodes) (after : List (List Char)) :
    ∀ (before : List (List Char)) (m : Machine σ) (dec : Int) (m1 : Machine σ) (d1 : Int),
      walkTo w sc before m dec = some (m1, d1) →
      walk w sc (before ++ after) m dec = walk w sc after m1 d1 := by
  intro before
  induction before with
  | nil =>
    intro m dec m1 d1 h
    simp only [walkTo, Option.some.injEq, Prod.mk.injEq] at h
    rw [h.1, h.2]; rfl
  | cons q qs ih =>
    intro m dec m1 d1 h
    simp only [walkTo] at h
    simp only [List.cons_append, walk]
    revert h
    cases _ensure_path_body w sc m q dec with
    | exit r => intro h; simp at h
    | next m2 d2 => intro h; exact ih m2 d2 m1 d1 h

/-- The loop body on a string that does not exist and whose `mkdir` fails: the probe is
issued and the body returns with the classification of the failure. -/
theorem body_failed_mkdir {σ : Type} (w : World σ) (sc : StatusCodes) (m : Machine σ)
    (p : List Char) (dec : Int)
    (h1 : (call_stat w m p).1.ret = -1) (h2 : (call_stat w m p).1.errno = ENOENT)
    (h3 : (call_mkdir w (call_stat w m p).2 p 0o755).1 = -1) :
    ∃ r, _ensure_path_body w sc m p dec = .exit r ∧
      r.m = (call_readlink w (call_mkdir w (call_stat w m p).2 p 0o755).2 p 1).2 ∧
      r.detailed_error_code = (call_mkdir w (call_stat w m p).2 p 0o755).2.errno ∧
      ((call_readlink w (call_mkdir w (call_stat w m p).2 p 0o755).2 p 1).1 ≠ -1 ∧
          (call_readlink w (call_mkdir w (call_stat w m p).2 p 0o755).2 p 1).2.errno ≠ EINVAL →
        r.rc = sc.FAIL_BROKEN_LINK) ∧
      ((call_readlink w (call_mkdir w (call_stat w m p).2 p 0o755).2 p 1).1 = -1 ∨
          (call_readlink w (call_mkdir w (call_stat w m p).2 p 0o755).2 p 1).2.errno = EINVAL →
        r.rc = sc.FAIL_CREATE_DIRECTORY) := by
  have h2b : (call_stat w m p).2.errno = ENOENT := h2
  simp only [_ensure_path_body]
  rw [if_pos h1, if_neg (fun h => h h2b), if_pos h3]
  by_cases hrl : (call_readlink w (call_mkdir w (call_stat w m p).2 p 0o755).2 p 1).1 ≠ -1 ∧
      (call_readlink w (call_mkdir w (call_stat w m p).2 p 0o755).2 p 1).2.errno ≠ EINVAL
  · rw [if_pos hrl]
    refine ⟨_, rfl, rfl, rfl, fun _ => rfl, fun h => ?_⟩
    rcases h with h | h
    · exact absurd h hrl.1
    · exact absurd h hrl.2
  · rw [if_neg hrl]
    exact ⟨_, rfl, rfl, rfl, fun h => absurd h hrl, fun _ => rfl⟩

/-- Claim C8 fails when the probe fails for a reason other than `EINVAL`: `mkdir` on `"a"`
fails with `errno` 13, `readlink` fails with `ENOENT`, and `_ensure_path_exists` returns
`FAIL_CREATE_DIRECTORY`, not `FAIL_BROKEN_LINK`. -/
theorem ensure_path_probe_enoent_is_create_failure :
    (_ensure_path_exists deniedWorld sampleCodes ⟨0, 0, []⟩ "a".toList 0).map
        (fun r => (r.rc, r.detailed_error_code, r.m.trace)) =
      some (sampleCodes.FAIL_CREATE_DIRECTORY, 13,
        [⟨Call.strdup "a".toList, 1, 0⟩, ⟨Call.stat "a".toList, -1, ENOENT⟩,
         ⟨Call.mkdir "a".toList 0o755, -1, 13⟩, ⟨Call.readlink "a".toList 1, -1, ENOENT⟩]) ∧
    ENOENT ≠ EINVAL ∧ sampleCodes.FAIL_CREATE_DIRECTORY ≠ sampleCodes.FAIL_BROKEN_LINK := by
  decide

/-- Claim C8, as the code classifies. When the strings examined for a path are `before`,
then `p`, then `after`, the loop passes the strings of `before` and reaches `p` in machine
`m1`, `stat` on `p` fails there with `ENOENT` and the `mkdir` that follows returns `-1`,
then `_ensure_path_exists` returns: the run ends with that `stat`, that `mkdir` with mode
`0755` and a `readlink` probe on `p`, `detailed_error_code` is the `errno` of the `mkdir`,
and the result is `FAIL_BROKEN_LINK` exactly when the probe does not return `-1` and
`errno` after it is not `EINVAL`, and `FAIL_CREATE_DIRECTORY` exactly when the probe
returns `-1` or `errno` after it is `EINVAL`. -/
theorem ensure_path_failed_mkdir {σ : Type} (w : World σ) (sc : StatusCodes) (hsc : sc.Valid)
    (m : Machine σ) (path : List Char) (dec : Int) (before : List (List Char)) (p : List Char)
    (after : List (List Char)) (m1 : Machine σ) (d1 : Int)
    (hdup : (w.strdup m.world (dupOf path)).1.ok = true)
    (hsplit : examined (dupOf path) = before ++ p :: after)
    (hbefore : walkTo w sc before (call_strdup w m (dupOf path)).2 dec = some (m1, d1))
    (hstat : (w.stat m1.world p).1.ret = -1 ∧ (w.stat m1.world p).1.errno = ENOENT)
    (hmkdir : (w.mkdir (w.stat m1.world p).2 p 0o755).1.ret = -1) :
    ∃ r, _ensure_path_exists w sc m path dec = some r ∧
      r.m.trace = m1.trace ++
        [⟨Call.stat p, -1, ENOENT⟩,
         ⟨Call.mkdir p 0o755, -1, (w.mkdir (w.stat m1.world p).2 p 0o755).1.errno⟩,
         ⟨Call.readlink p 1,
          (w.readlink (w.mkdir (w.stat m1.world p).2 p 0o755).2 p 1).1.ret,
          (w.readlink (w.mkdir (w.stat m1.world p).2 p 0o755).2 p 1).1.errno⟩] ∧
      r.detailed_error_code = (w.mkdir (w.stat m1.world p).2 p 0o755).1.errno ∧
      (r.rc = sc.FAIL_BROKEN_LINK ↔
        (w.readlink (w.mkdir (w.stat m1.world p).2 p 0o755).2 p 1).1.ret ≠ -1 ∧
        (w.readlink (w.mkdir (w.stat m1.world p).2 p 0o755).2 p 1).1.errno ≠ EINVAL) ∧
      (r.rc = sc.FAIL_CREATE_DIRECTORY ↔
        (w.readlink (w.mkdir (w.stat m1.world p).2 p 0o755).2 p 1).1.ret = -1 ∨
        (w.readlink (w.mkdir (w.stat m1.world p).2 p 0o755).2 p 1).1.errno = EINVAL) := by
  obtain ⟨_, _, _, _, _, hne⟩ := valid_path_codes hsc
  rw [ensure_path_exists_eq]
  have hd : ¬ (call_strdup w m (dupOf path)).1 = false := by
    simp [call_strdup, hdup]
  rw [if_neg hd, hsplit, walk_append w sc (p :: after) before _ dec m1 d1 hbefore]
  obtain ⟨r, hr, hm, hdec, hb, hc⟩ := body_failed_mkdir w sc m1 p d1 hstat.1 hstat.2 hmkdir
  simp only [walk, hr]
  refine ⟨r, rfl, ?_, hdec, ⟨fun h => ?_, hb⟩, ⟨fun h => ?_, hc⟩⟩
  · rw [hm]
    simp only [call_readlink, call_mkdir, call_stat, List.append_assoc, List.singleton_append,
      hstat.1, hstat.2, hmkdir]
    rfl
  · by_contra hn
    have : r.rc = sc.FAIL_CREATE_DIRECTORY := hc (by
      simp only [call_readlink, call_mkdir, call_stat] at hn ⊢
      by_contra hx
      exact hn ⟨fun e => hx (Or.inl e), fun e => hx (Or.inr e)⟩)
    exact hne (h.symm.trans this)
  · by_contra hn
    have : r.rc = sc.FAIL_BROKEN_LINK := hb (by
      simp only [call_readlink, call_mkdir, call_stat] at hn ⊢
      exact ⟨fun e => hn (Or.inl e), fun e => hn (Or.inr e)⟩)
    exact hne (this.symm.trans h)

/-- An instance: `"x/y/a"` where `x` is a directory, `x/y` is created on the way and
`x/y/a` is a dangling symbolic link; the probe succeeds and the result is
`FAIL_BROKEN_LINK` with the `errno` 17 of the `mkdir`. -/
theorem ensure_path_failed_mkdir_witness :
    sampleCodes.Valid ∧
    (diskWorld.strdup (⟨["x".toList], ["x/y/a".toList]⟩ : Disk)
      (dupOf "x/y/a".toList)).1.ok = true ∧
    examined (dupOf "x/y/a".toList) = ["x".toList, "x/y".toList] ++ "x/y/a".toList :: [] ∧
    (∃ m1 d1, walkTo diskWorld sampleCodes ["x".toList, "x/y".toList]
        (call_strdup diskWorld ⟨⟨["x".toList], ["x/y/a".toList]⟩, 0, []⟩
          (dupOf "x/y/a".toList)).2 0 = some (m1, d1) ∧
      ((diskWorld.stat m1.world "x/y/a".toList).1.ret = -1 ∧
        (diskWorld.stat m1.world "x/y/a".toList).1.errno = ENOENT) ∧
      (diskWorld.mkdir (diskWorld.stat m1.world "x/y/a".toList).2 "x/y/a".toList
        0o755).1.ret = -1) ∧
    ∃ r, _ensure_path_exists diskWorld sampleCodes ⟨⟨["x".toList], ["x/y/a".toList]⟩, 0, []⟩
        "x/y/a".toList 0 = some r ∧
      r.rc = sampleCodes.FAIL_BROKEN_LINK ∧ r.detailed_error_code = 17 ∧
      r.m.trace.map (fun e => e.call) =
        [Call.strdup "x/y/a".toList, Call.stat "x".toList, Call.stat "x/y".toList,
         Call.mkdir "x/y".toList 0o755, Call._sync_directory_for_internal "x/y".toList,
         Call._sync_directory_for "x/y".toList, Call.stat "x/y/a".toList,
         Call.mkdir "x/y/a".toList 0o755, Call.readlink "x/y/a".toList 1] := by
  refine ⟨by decide, rfl, by decide, ⟨_, _, rfl, ⟨rfl, rfl⟩, rfl⟩, ?_⟩
  obtain ⟨r, h1, h2, h3, h4, _⟩ :=
    ensure_path_failed_mkdir diskWorld sampleCodes (by decide)
      ⟨⟨["x".toList], ["x/y/a".toList]⟩, 0, []⟩ "x/y/a".toList 0
      ["x".toList, "x/y".toList] "x/y/a".toList [] _ _ rfl (by decide) rfl ⟨rfl, rfl⟩ rfl
  refine ⟨r, h1, h4.2 ⟨by decide, by decide⟩, h3, ?_⟩
  rw [h2]
  rfl

end Fileutils
